import Mathlib

/-!
Verification of the Adept orchestration core against its specification.

The development shallowly embeds the TypeScript sources:
  * `src/lib/tool-guardrails.ts` (allow-listing, duplicate-action cache),
  * `src/lib/execution-handoff.ts` (the handoff protocol codec),
  * `src/lib/retry.ts` (the backoff engine `withRetry`),
  * the tool-call interception wrapper of the orchestration pipeline.

Strings are modelled as `List Char` (`Str`), with the JavaScript string
operations (`trim`, `toLowerCase`, `split`, prefix tests, the regexes the
source uses) implemented explicitly so that every branch of the source is
mirrored by an executable Lean definition.
-/

namespace Adept

/-- Character sequences standing for JavaScript strings. -/
abbrev Str := List Char

/-- JavaScript `\s` whitespace, restricted to the characters that can occur
in the inputs handled here (space, tab, carriage return, newline). -/
def isWs (c : Char) : Bool := c = ' ' || c = '\t' || c = '\r' || c = '\n'

/-- Leading-whitespace removal (the left half of `String.prototype.trim`). -/
def trimLeft (s : Str) : Str := s.dropWhile isWs

/-- Trailing-whitespace removal (the right half of `String.prototype.trim`). -/
def trimRight (s : Str) : Str := (s.reverse.dropWhile isWs).reverse

/-- JavaScript `String.prototype.trim`. -/
def trim (s : Str) : Str := trimLeft (trimRight s)

/-- JavaScript `String.prototype.toLowerCase` (ASCII range). -/
def toLowerStr (s : Str) : Str := s.map Char.toLower

/-- Splits on `'\n'`; the pieces may still carry a trailing `'\r'`. -/
def splitOnNl : Str → List Str
  | [] => [[]]
  | c :: rest =>
    match splitOnNl rest with
    | [] => [[c]]
    | l :: ls => if c = '\n' then [] :: l :: ls else (c :: l) :: ls

/-- Removes one trailing carriage return, if present. -/
def dropTrailingCr (s : Str) : Str :=
  if s.getLast? = some '\r' then s.dropLast else s

/-- JavaScript `raw.split(/\r?\n/)`. -/
def splitLines (s : Str) : List Str := (splitOnNl s).map dropTrailingCr

/-- JavaScript `Array.prototype.join('\n')` on a non-empty array
(`[]` maps to the empty string, as in JS). -/
def joinNl : List Str → Str
  | [] => []
  | [l] => l
  | l :: ls => l ++ '\n' :: joinNl (ls)

end Adept

namespace Adept

/-! ## Tool guardrails (`src/lib/tool-guardrails.ts`) -/

/-- The fixed `ALWAYS_ALLOWED_TOOLS` set. -/
def ALWAYS_ALLOWED_TOOLS : List Str :=
  ["tool_registry_search".toList, "tool_registry_execute".toList,
   "get_current_time".toList]

/-- The `MAX_DEDUPE_ENTRIES` capacity constant. -/
def MAX_DEDUPE_ENTRIES : Nat := 1500

/-- The `toolRouting` slice of the loaded configuration that the guardrails
read: per-workspace allow-lists (with a `"*"` wildcard key) and the dedupe
window in minutes. -/
structure ToolRoutingConfig where
  allowlistByWorkspace : Option (List (Str × List Str))
  dedupeWindowMinutes : Option Int

/-- Association-list lookup, mirroring JS object property access. -/
def alistGet (k : Str) : List (Str × α) → Option α
  | [] => none
  | (k', v) :: rest => if k' = k then some v else alistGet k rest

/-- The `normalizeList` helper: trim every entry, drop empties. -/
def normalizeList (values : List Str) : List Str :=
  (values.map trim).filter (fun v => v ≠ [])

/-- `ToolGuardrails.getAllowlist`: per-workspace list, `"*"` fallback,
else empty. -/
def getAllowlist (cfg : ToolRoutingConfig) (workspaceId : Option Str) : List Str :=
  match cfg.allowlistByWorkspace with
  | none => []
  | some m =>
    match workspaceId with
    | some ws =>
      match alistGet ws m with
      | some l => normalizeList l
      | none => starFallback m
    | none => starFallback m
where
  /-- The `allowlist['*']` fallback branch. -/
  starFallback (m : List (Str × List Str)) : List Str :=
    match alistGet "*".toList m with
    | some l => normalizeList l
    | none => []

/-- One iteration body of the `for (const entry of allowlist)` loop of
`isToolAllowed`: exact case-insensitive match on the tool name, exact
case-insensitive match on the integration id, or prefix match against a
`*`-suffixed entry. -/
def entryAllows (entry toolName : Str) (integrationId : Option Str) : Bool :=
  let normalizedEntry := toLowerStr entry
  let normalizedTool := toLowerStr toolName
  let integrationHit : Bool :=
    match integrationId with
    | some i => normalizedEntry = toLowerStr i
    | none => false
  if normalizedEntry = normalizedTool then true
  else if integrationHit then true
  else if normalizedEntry.getLast? = some '*'
          && normalizedEntry.dropLast.isPrefixOf normalizedTool then true
  else false

/-- The allow-list scan loop of `isToolAllowed`. -/
def allowLoop (toolName : Str) (integrationId : Option Str) : List Str → Bool
  | [] => false
  | entry :: rest =>
    if entryAllows entry toolName integrationId then true
    else allowLoop toolName integrationId rest

/-- The decision value `{allowed, reason?}` of `isToolAllowed`. -/
structure ToolGuardDecision where
  allowed : Bool
  reason : Option Str
deriving DecidableEq

/-- `ToolGuardrails.isToolAllowed`. -/
def isToolAllowed (cfg : ToolRoutingConfig) (workspaceId : Option Str)
    (toolName : Str) (integrationId : Option Str) : ToolGuardDecision :=
  match workspaceId with
  | none => ⟨true, none⟩
  | some ws =>
    if toolName ∈ ALWAYS_ALLOWED_TOOLS then ⟨true, none⟩
    else
      let allowlist := getAllowlist cfg (some ws)
      if allowlist = [] then ⟨true, none⟩
      else if allowLoop toolName integrationId allowlist then ⟨true, none⟩
      else ⟨false, some ("Tool ".toList ++ toolName
              ++ " is not allowed for workspace ".toList ++ ws ++ ".".toList)⟩

end Adept

namespace Adept

/-! ## Canonical JSON hashing input (`stableStringify`) -/

mutual
/-- JSON-like tool-input values (the dynamic payloads passed to tools). -/
inductive Json where
  | null : Json
  | bool : Bool → Json
  | num : Int → Json
  | str : Str → Json
  | arr : JsonArr → Json
  | obj : JsonObj → Json

/-- Array spine. -/
inductive JsonArr where
  | nil : JsonArr
  | cons : Json → JsonArr → JsonArr

/-- Object spine: ordered key/value fields. -/
inductive JsonObj where
  | nil : JsonObj
  | cons : Str → Json → JsonObj → JsonObj
end

deriving instance DecidableEq for Json

deriving instance Repr for Json

/-- Code-unit comparison of strings, as JavaScript's default `sort()`. -/
def strLe : Str → Str → Bool
  | [], _ => true
  | _ :: _, [] => false
  | a :: as, b :: bs =>
    if a.val < b.val then true
    else if b.val < a.val then false
    else strLe as bs

/-- Insert a field into a key-sorted object spine. -/
def insertField (k : Str) (v : Json) : JsonObj → JsonObj
  | .nil => .cons k v .nil
  | .cons k' v' rest =>
    if strLe k k' then .cons k v (.cons k' v' rest)
    else .cons k' v' (insertField k v rest)

/-- Sort an object's fields by key (`Object.keys(val).sort()`). -/
def sortFields : JsonObj → JsonObj
  | .nil => .nil
  | .cons k v rest => insertField k v (sortFields rest)

mutual
/-- Recursively sort every object's keys (the effect of the replacer passed
to `JSON.stringify` in `stableStringify`); arrays keep their order. -/
def jsonCanon : Json → Json
  | .null => .null
  | .bool b => .bool b
  | .num n => .num n
  | .str s => .str s
  | .arr xs => .arr (jsonCanonArr xs)
  | .obj fs => .obj (sortFields (jsonCanonObj fs))

/-- Canonicalize every element of an array. -/
def jsonCanonArr : JsonArr → JsonArr
  | .nil => .nil
  | .cons x xs => .cons (jsonCanon x) (jsonCanonArr xs)

/-- Canonicalize every value of an object, keeping field order. -/
def jsonCanonObj : JsonObj → JsonObj
  | .nil => .nil
  | .cons k v fs => .cons k (jsonCanon v) (jsonCanonObj fs)
end

/-- String escaping inside a serialized JSON string literal. -/
def escapeChar (c : Char) : Str :=
  if c = '"' || c = '\\' then ['\\', c] else [c]

/-- Decimal rendering of an integer. -/
def intToStr (n : Int) : Str :=
  if n < 0 then '-' :: Nat.toDigits 10 n.natAbs else Nat.toDigits 10 n.natAbs

mutual
/-- Plain `JSON.stringify` rendering (no replacer). -/
def jsonRender : Json → Str
  | .null => "null".toList
  | .bool true => "true".toList
  | .bool false => "false".toList
  | .num n => intToStr n
  | .str s => '"' :: s.flatMap escapeChar ++ ['"']
  | .arr xs => '[' :: jsonRenderArr xs ++ [']']
  | .obj fs => Char.ofNat 123 :: jsonRenderObj fs ++ [Char.ofNat 125]

/-- Comma-joined array elements. -/
def jsonRenderArr : JsonArr → Str
  | .nil => []
  | .cons x .nil => jsonRender x
  | .cons x xs => jsonRender x ++ ',' :: jsonRenderArr xs

/-- Comma-joined `"key":value` fields. -/
def jsonRenderObj : JsonObj → Str
  | .nil => []
  | .cons k v .nil => '"' :: k.flatMap escapeChar ++ '"' :: ':' :: jsonRender v
  | .cons k v fs =>
    '"' :: k.flatMap escapeChar ++ '"' :: ':' :: jsonRender v ++ ',' :: jsonRenderObj fs
end

/-- The `stableStringify` helper: `JSON.stringify` with object keys sorted
recursively (arrays keep their order). -/
def stableStringify (v : Json) : Str := jsonRender (jsonCanon v)

/-! ## Duplicate-action cache (`ToolGuardrails.isDuplicate`) -/

/-- The in-memory dedupe `Map`, in insertion order (key, timestamp). -/
abbrev DedupeCache := List (Str × Int)

/-- `getDedupeWindowMs`: configured minutes (default 60, floor 1) in ms. -/
def getDedupeWindowMs (cfg : ToolRoutingConfig) : Int :=
  max (cfg.dedupeWindowMinutes.getD 60) 1 * 60000

/-- The dedupe hash preimage `workspace:tool:canonicalJSON(input)`; the
SHA-256 digest taken in the source is modelled by the preimage itself. -/
def dedupeKey (workspaceId : Option Str) (toolName : Str) (input : Json) : Str :=
  (workspaceId.getD "global".toList) ++ ':' :: toolName ++ ':' :: stableStringify input

/-- `Map.prototype.get`. -/
def cacheGet (k : Str) (c : DedupeCache) : Option Int := alistGet k c

/-- `Map.prototype.set`: update in place if present, else append. -/
def cacheSet (k : Str) (v : Int) : DedupeCache → DedupeCache
  | [] => [(k, v)]
  | (k', v') :: rest => if k' = k then (k, v) :: rest else (k', v') :: cacheSet k v rest

/-- The capacity-triggered eviction loop: walk entries in insertion order,
delete those older than the window, stop once the size is back under the
cap. `kept` holds the entries already visited and retained. -/
def evictLoop (now windowMs : Int) : List (Str × Int) → List (Str × Int) → List (Str × Int)
  | kept, [] => kept
  | kept, (k, ts) :: rest =>
    let kept' := if now - ts > windowMs then kept else kept ++ [(k, ts)]
    if kept'.length + rest.length ≤ MAX_DEDUPE_ENTRIES then kept' ++ rest
    else evictLoop now windowMs kept' rest

/-- The insert-then-maybe-evict tail of `isDuplicate`. -/
def recordCall (now windowMs : Int) (key : Str) (cache : DedupeCache) : DedupeCache :=
  let cache' := cacheSet key now cache
  if cache'.length > MAX_DEDUPE_ENTRIES then evictLoop now windowMs [] cache' else cache'

/-- `ToolGuardrails.isDuplicate`, returning the decision and the updated
cache. `now` stands for `Date.now()`. The `previous &&` truthiness test of
the source makes a stored timestamp of exactly `0` count as absent. -/
def isDuplicate (cfg : ToolRoutingConfig) (now : Int) (cache : DedupeCache)
    (workspaceId : Option Str) (toolName : Str) (input : Json) : Bool × DedupeCache :=
  let windowMs := getDedupeWindowMs cfg
  let key := dedupeKey workspaceId toolName input
  match cacheGet key cache with
  | some previous =>
    if previous ≠ 0 ∧ now - previous < windowMs then (true, cache)
    else (false, recordCall now windowMs key cache)
  | none => (false, recordCall now windowMs key cache)

end Adept

namespace Adept

/-! ## Guardrail lemmas and claims -/

/-- Specification-level reading of one allow-list entry match. -/
def EntryMatches (entry toolName : Str) (integrationId : Option Str) : Prop :=
  toLowerStr entry = toLowerStr toolName
  ∨ (∃ i, integrationId = some i ∧ toLowerStr entry = toLowerStr i)
  ∨ ((toLowerStr entry).getLast? = some '*'
      ∧ (toLowerStr entry).dropLast.isPrefixOf (toLowerStr toolName))

theorem entryAllows_iff (entry toolName : Str) (integrationId : Option Str) :
    entryAllows entry toolName integrationId = true
      ↔ EntryMatches entry toolName integrationId := by
  unfold entryAllows EntryMatches
  cases integrationId with
  | none =>
    simp only [Option.some.injEq, exists_eq_left', false_and, exists_false, false_or]
    split
    · simp_all
    · split
      · simp_all
      · split <;> simp_all
  | some i =>
    simp only [Option.some.injEq, exists_eq_left']
    split
    · simp_all
    · split
      · simp_all
      · split <;> simp_all

theorem allowLoop_iff (toolName : Str) (integrationId : Option Str) (l : List Str) :
    allowLoop toolName integrationId l = true
      ↔ ∃ e ∈ l, EntryMatches e toolName integrationId := by
  induction l with
  | nil => simp [allowLoop]
  | cons e rest ih =>
    unfold allowLoop
    split
    · rename_i h
      simp only [List.mem_cons, true_iff]
      exact ⟨e, Or.inl rfl, (entryAllows_iff e toolName integrationId).1 h⟩
    · rename_i h
      rw [ih]
      constructor
      · rintro ⟨x, hx, hm⟩
        exact ⟨x, List.mem_cons_of_mem e hx, hm⟩
      · rintro ⟨x, hx, hm⟩
        rcases List.mem_cons.1 hx with rfl | hx'
        · exact absurd ((entryAllows_iff x toolName integrationId).2 hm) (by simp [h])
        · exact ⟨x, hx', hm⟩

/-- Workspace `W1` restricted to the single wildcard entry `salesforce_*`. -/
def cfgSF : ToolRoutingConfig := ⟨some [("W1".toList, ["salesforce_*".toList])], none⟩

/-- Workspace `W1` with an empty allow-list (unrestricted). -/
def cfgUnrestricted : ToolRoutingConfig := ⟨some [("W1".toList, [])], none⟩

/-- C8: the fixed always-allowed tools are allowed regardless of workspace;
no workspace id or an empty resolved allow-list allows every tool; otherwise
a tool is allowed exactly when its name or integration id case-insensitively
equals an entry, or its name matches a `*`-suffixed entry's prefix, and a
denial carries a human-readable reason. -/
theorem isToolAllowed_policy (cfg : ToolRoutingConfig) (toolName : Str)
    (integrationId : Option Str) :
    (∀ ws : Option Str, toolName ∈ ALWAYS_ALLOWED_TOOLS →
        (isToolAllowed cfg ws toolName integrationId).allowed = true)
    ∧ (isToolAllowed cfg none toolName integrationId).allowed = true
    ∧ (∀ ws : Str, getAllowlist cfg (some ws) = [] →
        (isToolAllowed cfg (some ws) toolName integrationId).allowed = true)
    ∧ (∀ ws : Str, toolName ∉ ALWAYS_ALLOWED_TOOLS →
        getAllowlist cfg (some ws) ≠ [] →
        ((isToolAllowed cfg (some ws) toolName integrationId).allowed = true
           ↔ ∃ e ∈ getAllowlist cfg (some ws), EntryMatches e toolName integrationId)
        ∧ ((isToolAllowed cfg (some ws) toolName integrationId).allowed = false →
            (isToolAllowed cfg (some ws) toolName integrationId).reason
              = some ("Tool ".toList ++ toolName
                  ++ " is not allowed for workspace ".toList ++ ws ++ ".".toList))) := by
  refine ⟨?_, ?_, ?_, ?_⟩
  · intro ws hmem
    cases ws with
    | none => rfl
    | some w => simp [isToolAllowed, hmem]
  · rfl
  · intro ws hempty
    by_cases hmem : toolName ∈ ALWAYS_ALLOWED_TOOLS
    · simp [isToolAllowed, hmem]
    · simp [isToolAllowed, hmem, hempty]
  · intro ws hmem hne
    constructor
    · rw [← allowLoop_iff]
      by_cases hloop : allowLoop toolName integrationId (getAllowlist cfg (some ws)) = true
      · simp [isToolAllowed, hmem, hne, hloop]
      · simp [isToolAllowed, hmem, hne, hloop]
    · intro hfalse
      by_cases hloop : allowLoop toolName integrationId (getAllowlist cfg (some ws)) = true
      · exfalso
        simp [isToolAllowed, hmem, hne, hloop] at hfalse
      · simp [isToolAllowed, hmem, hne, hloop]

/-- Witness for C8 at the spec's own example: allow-list `["salesforce_*"]`
allows `salesforce_get_deal` and denies `github_search_issues`; an empty
allow-list allows both. -/
theorem isToolAllowed_policy_witness :
    (isToolAllowed cfgSF (some "W1".toList) "salesforce_get_deal".toList none).allowed = true
    ∧ (isToolAllowed cfgSF (some "W1".toList) "github_search_issues".toList none).allowed = false
    ∧ (isToolAllowed cfgUnrestricted (some "W1".toList) "salesforce_get_deal".toList none).allowed = true
    ∧ (isToolAllowed cfgUnrestricted (some "W1".toList) "github_search_issues".toList none).allowed = true := by
  refine ⟨?_, by decide, ?_, ?_⟩
  · exact ((isToolAllowed_policy cfgSF "salesforce_get_deal".toList none).2.2.2
      "W1".toList (by decide) (by decide)).1.mpr
      ⟨"salesforce_*".toList, by decide, Or.inr (Or.inr ⟨by decide, by decide⟩)⟩
  · exact (isToolAllowed_policy cfgUnrestricted "salesforce_get_deal".toList none).2.2.1
      "W1".toList (by decide)
  · exact (isToolAllowed_policy cfgUnrestricted "github_search_issues".toList none).2.2.1
      "W1".toList (by decide)

theorem cacheGet_cons (k k' : Str) (v : Int) (c : DedupeCache) :
    cacheGet k ((k', v) :: c) = if k' = k then some v else cacheGet k c := rfl

theorem dedupeKey_congr (ws : Option Str) (tool : Str) (i1 i2 : Json)
    (h : stableStringify i2 = stableStringify i1) :
    dedupeKey ws tool i2 = dedupeKey ws tool i1 := by
  unfold dedupeKey
  rw [h]

/-- C7: with the default 60-minute window, the first call on a fresh cache
records the timestamp and reports no duplicate; a second call with an input
of identical canonical JSON inside the window reports a duplicate without
touching the stored timestamp; a third call after the window has elapsed
reports no duplicate and re-records. (`0 < t1` reflects that `Date.now()`
is a positive epoch timestamp; the source treats a stored `0` as absent.) -/
theorem isDuplicate_window_behavior (cfg : ToolRoutingConfig) (ws : Option Str)
    (tool : Str) (input1 input2 : Json) (t1 t2 t3 : Int)
    (hw : getDedupeWindowMs cfg = 3600000)
    (hcanon : stableStringify input2 = stableStringify input1)
    (ht1 : 0 < t1) (ht2 : t2 - t1 < 3600000) (ht3 : 3600000 ≤ t3 - t1) :
    (isDuplicate cfg t1 [] ws tool input1)
        = (false, [(dedupeKey ws tool input1, t1)])
    ∧ (isDuplicate cfg t2 [(dedupeKey ws tool input1, t1)] ws tool input2)
        = (true, [(dedupeKey ws tool input1, t1)])
    ∧ (isDuplicate cfg t3 [(dedupeKey ws tool input1, t1)] ws tool input2)
        = (false, [(dedupeKey ws tool input1, t3)]) := by
  have hkey := dedupeKey_congr ws tool input1 input2 hcanon
  refine ⟨?_, ?_, ?_⟩
  · show isDuplicate cfg t1 [] ws tool input1 = _
    unfold isDuplicate
    simp [cacheGet, alistGet, recordCall, cacheSet, MAX_DEDUPE_ENTRIES]
  · unfold isDuplicate
    rw [hkey, hw]
    simp only [cacheGet, alistGet, if_pos rfl]
    have hne : t1 ≠ 0 := by omega
    simp [hne, ht2]
  · unfold isDuplicate
    rw [hkey, hw]
    simp only [cacheGet, alistGet, if_pos rfl]
    have hge : ¬ (t3 - t1 < 3600000) := by omega
    simp [hge, recordCall, cacheSet, MAX_DEDUPE_ENTRIES]

/-- Concrete dedupe scenario: same tool, key order of the object input
swapped between the two calls, clock times 1000 / 2000 / 3601500 ms. -/
def dedupeInputA : Json :=
  .obj (.cons "title".toList (.str "bug".toList)
         (.cons "repo".toList (.str "adept".toList) .nil))

/-- The same payload as `dedupeInputA` with the field order swapped. -/
def dedupeInputB : Json :=
  .obj (.cons "repo".toList (.str "adept".toList)
         (.cons "title".toList (.str "bug".toList) .nil))

/-- Witness for C7 at a concrete instance. -/
theorem isDuplicate_window_behavior_witness :
    (isDuplicate ⟨none, none⟩ 1000 [] none "github_create_issue".toList dedupeInputA)
        = (false, [(dedupeKey none "github_create_issue".toList dedupeInputA, 1000)])
    ∧ (isDuplicate ⟨none, none⟩ 2000
        [(dedupeKey none "github_create_issue".toList dedupeInputA, 1000)]
        none "github_create_issue".toList dedupeInputB)
        = (true, [(dedupeKey none "github_create_issue".toList dedupeInputA, 1000)])
    ∧ (isDuplicate ⟨none, none⟩ 3601500
        [(dedupeKey none "github_create_issue".toList dedupeInputA, 1000)]
        none "github_create_issue".toList dedupeInputB)
        = (false, [(dedupeKey none "github_create_issue".toList dedupeInputA, 3601500)]) :=
  isDuplicate_window_behavior ⟨none, none⟩ none "github_create_issue".toList
    dedupeInputA dedupeInputB 1000 2000 3601500
    (by decide) (by decide) (by decide) (by decide) (by decide)

theorem evictLoop_kept_mem (now w : Int) (p : Str × Int) :
    ∀ (l kept : List (Str × Int)), p ∈ kept → p ∈ evictLoop now w kept l := by
  intro l
  induction l with
  | nil => intro kept hk; simpa [evictLoop] using hk
  | cons q rest ih =>
    intro kept hk
    obtain ⟨k, ts⟩ := q
    unfold evictLoop
    by_cases hexp : now - ts > w
    · simp only [if_pos hexp]
      split
      · exact List.mem_append_left _ hk
      · exact ih kept hk
    · simp only [if_neg hexp]
      split
      · exact List.mem_append_left _ (List.mem_append_left _ hk)
      · exact ih _ (List.mem_append_left _ hk)

theorem evictLoop_mem_or_expired (now w : Int) (p : Str × Int) :
    ∀ (l kept : List (Str × Int)), p ∈ l →
      p ∈ evictLoop now w kept l ∨ now - p.2 > w := by
  intro l
  induction l with
  | nil => intro kept hk; cases hk
  | cons q rest ih =>
    intro kept hmem
    obtain ⟨k, ts⟩ := q
    rcases List.mem_cons.1 hmem with rfl | hrest
    · by_cases hexp : now - ts > w
      · exact Or.inr hexp
      · left
        unfold evictLoop
        simp only [if_neg hexp]
        split
        · exact List.mem_append_left _ (List.mem_append_right kept (by simp))
        · exact evictLoop_kept_mem now w (k, ts) rest (kept ++ [(k, ts)])
            (List.mem_append_right kept (by simp))
    · unfold evictLoop
      by_cases hexp : now - ts > w
      · simp only [if_pos hexp]
        split
        · exact Or.inl (List.mem_append_right _ hrest)
        · exact ih _ hrest
      · simp only [if_neg hexp]
        split
        · exact Or.inl (List.mem_append_right _ hrest)
        · exact ih _ hrest

theorem evictLoop_all_fresh (now w : Int) :
    ∀ (l kept : List (Str × Int)), (∀ p ∈ l, ¬ now - p.2 > w) →
      evictLoop now w kept l = kept ++ l := by
  intro l
  induction l with
  | nil => intro kept _; simp [evictLoop]
  | cons q rest ih =>
    intro kept hfresh
    obtain ⟨k, ts⟩ := q
    have hq : ¬ now - ts > w := hfresh (k, ts) (by simp)
    unfold evictLoop
    simp only [if_neg hq]
    split
    · simp
    · rw [ih (kept ++ [(k, ts)]) (fun p hp => hfresh p (List.mem_cons_of_mem _ hp))]
      simp

theorem cacheSet_absent (k : Str) (v : Int) :
    ∀ c : DedupeCache, cacheGet k c = none → cacheSet k v c = c ++ [(k, v)] := by
  intro c
  induction c with
  | nil => intro _; rfl
  | cons q rest ih =>
    intro habs
    obtain ⟨k', v'⟩ := q
    by_cases hk : k' = k
    · simp [cacheGet, alistGet, hk] at habs
    · simp only [cacheGet, alistGet, hk, if_neg hk, if_false] at habs ⊢
      simp [cacheSet, hk, ih habs]

theorem dedupeWindow_pos (cfg : ToolRoutingConfig) : 0 < getDedupeWindowMs cfg := by
  unfold getDedupeWindowMs
  have : (1 : Int) ≤ max (cfg.dedupeWindowMinutes.getD 60) 1 := le_max_right _ _
  nlinarith

/-- C10: the capacity-triggered eviction only ever removes entries older
than the dedupe window, so when every cached entry is younger than the
window an insert grows the cache by one entry even past the 1500-entry cap:
the cap is a soft bound and the cache grows without limit under sustained
distinct fresh inserts. -/
theorem dedupe_cap_is_soft (cfg : ToolRoutingConfig) (now : Int)
    (cache : DedupeCache) (ws : Option Str) (tool : Str) (input : Json)
    (hfresh : ∀ p ∈ cache, now - p.2 ≤ getDedupeWindowMs cfg)
    (habsent : cacheGet (dedupeKey ws tool input) cache = none) :
    ((isDuplicate cfg now cache ws tool input).2).length = cache.length + 1
    ∧ (cache.length ≥ MAX_DEDUPE_ENTRIES →
        ((isDuplicate cfg now cache ws tool input).2).length > MAX_DEDUPE_ENTRIES)
    ∧ (∀ (l : List (Str × Int)) (p : Str × Int), p ∈ l →
        p ∈ evictLoop now (getDedupeWindowMs cfg) [] l
        ∨ now - p.2 > getDedupeWindowMs cfg) := by
  have hset := cacheSet_absent (dedupeKey ws tool input) now cache habsent
  have hfresh2 : ∀ p ∈ cache ++ [(dedupeKey ws tool input, now)],
      ¬ now - p.2 > getDedupeWindowMs cfg := by
    intro p hp
    rcases List.mem_append.1 hp with hp' | hp'
    · exact not_lt.2 (hfresh p hp')
    · simp only [List.mem_singleton] at hp'
      subst hp'
      simpa using (dedupeWindow_pos cfg).le
  have hev := evictLoop_all_fresh now (getDedupeWindowMs cfg)
    (cache ++ [(dedupeKey ws tool input, now)]) [] hfresh2
  have hmain : ((isDuplicate cfg now cache ws tool input).2).length = cache.length + 1 := by
    unfold isDuplicate
    simp only [habsent]
    unfold recordCall
    simp only [hset]
    split
    · rw [hev]
      simp
    · simp
  refine ⟨hmain, fun hge => ?_, fun l p hp =>
    evictLoop_mem_or_expired now (getDedupeWindowMs cfg) p l [] hp⟩
  omega

/-- Witness for C10: a fresh two-entry cache grows to three entries. -/
theorem dedupe_cap_is_soft_witness :
    ((isDuplicate ⟨none, none⟩ 1000
        [("k1".toList, 500), ("k2".toList, 900)]
        none "github_create_issue".toList dedupeInputA).2).length = 3 := by
  have h := dedupe_cap_is_soft ⟨none, none⟩ 1000
    [("k1".toList, 500), ("k2".toList, 900)]
    none "github_create_issue".toList dedupeInputA
    (by decide) (by decide)
  exact h.1

/-! ## Execution-handoff codec (`src/lib/execution-handoff.ts`) -/

/-- The three values of the `status` enum of `ExecutionHandoffSchema`. -/
inductive Status where
  | done : Status
  | needs_info : Status
  | blocked : Status
deriving DecidableEq, Repr

/-- The section keys the parser tracks (the TS `SectionKey` union). -/
inductive SectionKey where
  | actions : SectionKey
  | data : SectionKey
  | errors : SectionKey
  | missing : SectionKey
  | followUp : SectionKey
  | draft : SectionKey
deriving DecidableEq, Repr

/-- The parsed handoff record. -/
structure ExecutionHandoff where
  status : Status
  actions : List Str
  data : List Str
  errors : List Str
  missing : List Str
  followUp : Option Str
  draft : Option Str
  raw : Str
deriving DecidableEq, Repr

/-- The `ExecutionHandoffParseResult` record. -/
structure ExecutionHandoffParseResult where
  ok : Bool
  handoff : Option ExecutionHandoff
  errors : List Str
  missingFields : List Str
deriving DecidableEq, Repr

/-- Characters allowed in a section label: the regex class `[A-Za-z\- ]`. -/
def isLabelChar (c : Char) : Bool := c.isAlpha || c = '-' || c = ' '

/-- The bullet glyph `•` (U+2022) accepted by `stripBullet`. -/
def bulletGlyph : Char := Char.ofNat 8226

/-- The match of `/^Status:\s*(.+)$/i` on a line, returning the trimmed
capture. The `.` of the capture cannot cross a line terminator, hence the
carriage-return condition. -/
def statusCapture (line : Str) : Option Str :=
  if "status:".toList.isPrefixOf (toLowerStr line) then
    let t := trimLeft (line.drop 7)
    if t ≠ [] ∧ '\n' ∉ t ∧ '\r' ∉ t then some (trimRight t) else none
  else none

/-- The match of `/^([A-Za-z\- ]+):\s*(.*)$/` on a line: the label is the
run of label characters before the first `:`; the rest of the line is
returned uninterpreted (callers trim it). -/
def sectionSplit (line : Str) : Option (Str × Str) :=
  match line.dropWhile isLabelChar with
  | ':' :: rest =>
    if line.takeWhile isLabelChar ≠ [] ∧ '\n' ∉ trimLeft rest ∧ '\r' ∉ trimLeft rest
    then some (line.takeWhile isLabelChar, rest) else none
  | _ => none

/-- `SECTION_KEYS` lookup after `normalizeSectionLabel` (trim + lowercase). -/
def lookupSection (label : Str) : Option SectionKey :=
  let n := toLowerStr (trim label)
  if n = "actions".toList then some .actions
  else if n = "data".toList then some .data
  else if n = "errors".toList then some .errors
  else if n = "missing".toList then some .missing
  else if n = "follow-up".toList then some .followUp
  else if n = "follow up".toList then some .followUp
  else if n = "followup".toList then some .followUp
  else if n = "draft".toList then some .draft
  else none

/-- `stripBullet`: drop one leading `-`, `*` or `•` plus following
whitespace, then trim. -/
def stripBullet (line : Str) : Str :=
  match line with
  | c :: rest => if c = '-' || c = '*' || c = bulletGlyph then trim rest else trim line
  | [] => trim line

/-- `isNone`: case-insensitive comparison of the trimmed value to `none`. -/
def isNoneItem (s : Str) : Bool := toLowerStr (trim s) = "none".toList

/-- The per-section accumulators of the parser. -/
structure Accumulators where
  actions : List Str
  data : List Str
  errors : List Str
  missing : List Str
  followUp : Option Str
  draft : Option Str
deriving DecidableEq, Repr

/-- `appendItem`: drop empty and `none` items; list sections push, the two
scalar sections concatenate with an internal newline. -/
def appendItem (sec : SectionKey) (item : Str) (acc : Accumulators) : Accumulators :=
  if item = [] then acc
  else if isNoneItem item then acc
  else match sec with
    | .followUp =>
      { acc with followUp := some (match acc.followUp with
          | some prev => prev ++ '\n' :: item
          | none => item) }
    | .draft =>
      { acc with draft := some (match acc.draft with
          | some prev => prev ++ '\n' :: item
          | none => item) }
    | .actions => { acc with actions := acc.actions ++ [item] }
    | .data => { acc with data := acc.data ++ [item] }
    | .errors => { acc with errors := acc.errors ++ [item] }
    | .missing => { acc with missing := acc.missing ++ [item] }

/-- The scan state of the parse loop. -/
structure ParseState where
  status : Option Status
  currentSection : Option SectionKey
  sectionsSeen : List SectionKey
  acc : Accumulators
  errs : List Str
deriving DecidableEq, Repr

/-- `Set.prototype.add` on the seen-sections set (insertion order kept). -/
def addSeen (k : SectionKey) (seen : List SectionKey) : List SectionKey :=
  if k ∈ seen then seen else seen ++ [k]

/-- The error message pushed for an invalid status value. -/
def invalidStatusMsg (cand : Str) : Str :=
  "Invalid status \"".toList ++ cand ++ "\".".toList

/-- The fall-through item branch of the loop body: append the bullet-stripped
line to the active section, if any. -/
def itemLine (st : ParseState) (line : Str) : ParseState :=
  match st.currentSection with
  | none => st
  | some sec =>
    let item := stripBullet line
    if item = [] then st
    else { st with acc := appendItem sec item st.acc }

/-- One iteration of the scan loop of `parseExecutionHandoff`: blank-line
skip, then the `Status:` test, then the section-header test, then the item
branch. -/
def processLine (st : ParseState) (rawLine : Str) : ParseState :=
  let line := trim rawLine
  if line = [] then st
  else
    match statusCapture line with
    | some cand =>
      let c := toLowerStr cand
      if c = "done".toList then { st with status := some .done, currentSection := none }
      else if c = "needs_info".toList then
        { st with status := some .needs_info, currentSection := none }
      else if c = "blocked".toList then
        { st with status := some .blocked, currentSection := none }
      else { st with errs := st.errs ++ [invalidStatusMsg cand], currentSection := none }
    | none =>
      match sectionSplit line with
      | some (label, rest) =>
        match lookupSection label with
        | some sec =>
          let st' := { st with currentSection := some sec,
                               sectionsSeen := addSeen sec st.sectionsSeen }
          let inl := trim rest
          if inl = [] then st' else { st' with acc := appendItem sec inl st'.acc }
        | none => itemLine st line
      | none => itemLine st line

/-- Initial scan state. -/
def initState : ParseState := ⟨none, none, [], ⟨[], [], [], [], none, none⟩, []⟩

/-- The header test `/^EXECUTION[_ ]HANDOFF/i` on a trimmed line. -/
def isHeaderLine (line : Str) : Bool :=
  "execution_handoff".toList.isPrefixOf (toLowerStr (trim line))
  || "execution handoff".toList.isPrefixOf (toLowerStr (trim line))

/-- `REQUIRED_SECTIONS`, in source order. -/
def REQUIRED_SECTIONS : List SectionKey :=
  [.actions, .data, .errors, .missing, .followUp, .draft]

/-- The TS string value of a `SectionKey` (used in `missingFields`). -/
def sectionFieldName : SectionKey → Str
  | .actions => "actions".toList
  | .data => "data".toList
  | .errors => "errors".toList
  | .missing => "missing".toList
  | .followUp => "followUp".toList
  | .draft => "draft".toList

/-- The final `ExecutionHandoffSchema.safeParse` gate. In this typed
embedding the only schema constraint with content is membership of the
status in the enum, which holds for every `Status` value. -/
def schemaIssues (h : ExecutionHandoff) : List Str :=
  if h.status = .done ∨ h.status = .needs_info ∨ h.status = .blocked then []
  else ["Invalid enum value".toList]

/-- `lines.findIndex(isHeaderLine)` (as an `Option`al index). -/
def findHeaderIndex : List Str → Option Nat
  | [] => none
  | line :: rest =>
    if isHeaderLine line then some 0 else (findHeaderIndex rest).map (· + 1)

/-- `parseExecutionHandoff`. -/
def parseExecutionHandoff (raw : Str) : ExecutionHandoffParseResult :=
  let lines := splitLines raw
  match findHeaderIndex lines with
  | none =>
    ⟨false, none, ["Missing EXECUTION_HANDOFF header.".toList], ["header".toList]⟩
  | some i =>
    let st := (lines.drop (i + 1)).foldl processLine initState
    let missingFields :=
      (if st.status.isSome then [] else ["status".toList])
        ++ (REQUIRED_SECTIONS.filter (fun k => k ∉ st.sectionsSeen)).map sectionFieldName
    let handoff : ExecutionHandoff :=
      ⟨st.status.getD .blocked, st.acc.actions, st.acc.data, st.acc.errors,
       st.acc.missing, st.acc.followUp, st.acc.draft, raw⟩
    let allErrs := st.errs ++ schemaIssues handoff
    ⟨allErrs.isEmpty && missingFields.isEmpty, some handoff, allErrs, missingFields⟩

/-- The TS string value of a `Status`. -/
def statusText : Status → Str
  | .done => "done".toList
  | .needs_info => "needs_info".toList
  | .blocked => "blocked".toList

/-- `formatList`: `- item` bullets, or `- none` when empty. -/
def formatList (items : List Str) : Str :=
  if items = [] then "- none".toList
  else joinNl (items.map (fun i => '-' :: ' ' :: i))

/-- `formatOptional`: `- value`, or `- none` for null or empty (falsy). -/
def formatOptional (v : Option Str) : Str :=
  match v with
  | some s => if s = [] then "- none".toList else '-' :: ' ' :: s
  | none => "- none".toList

/-- `formatExecutionHandoff`. -/
def formatExecutionHandoff (h : ExecutionHandoff) : Str :=
  joinNl ["EXECUTION_HANDOFF".toList,
          "Status: ".toList ++ statusText h.status,
          "Actions:".toList, formatList h.actions,
          "Data:".toList, formatList h.data,
          "Errors:".toList, formatList h.errors,
          "Missing:".toList, formatList h.missing,
          "Follow-up:".toList, formatOptional h.followUp,
          "Draft:".toList, formatOptional h.draft]

/-- `buildFallbackHandoff`. -/
def buildFallbackHandoff (reason : Str) (followUp : Option Str) : ExecutionHandoff :=
  ⟨.blocked, [], [], [reason], ["executor_handoff_format".toList],
   some (followUp.getD "Could you restate the request or provide more detail?".toList),
   none, []⟩

/-- The parse / repair / fallback selection of `generateTextResponse`,
as a function of the executor's text and the repair attempt's text. -/
def pipelineHandoff (executorText repairText : Str) : ExecutionHandoff :=
  let p := parseExecutionHandoff executorText
  if p.ok then
    p.handoff.getD (buildFallbackHandoff "Execution handoff missing.".toList none)
  else
    let q := parseExecutionHandoff repairText
    if q.ok then
      q.handoff.getD (buildFallbackHandoff "Execution handoff missing.".toList none)
    else buildFallbackHandoff "Execution handoff could not be parsed.".toList none

/-- C4: whenever the executor text fails to parse and the repair attempt's
text also fails to parse, the pipeline hands the presenter exactly the
deterministic fallback handoff: status `blocked`, empty actions and data, a
singleton error naming the cause, `missing = ["executor_handoff_format"]`,
and the generic clarification follow-up question. -/
theorem pipeline_fallback_guarantee (e r : Str)
    (he : (parseExecutionHandoff e).ok = false)
    (hr : (parseExecutionHandoff r).ok = false) :
    pipelineHandoff e r
      = buildFallbackHandoff "Execution handoff could not be parsed.".toList none
    ∧ (pipelineHandoff e r).status = .blocked
    ∧ (pipelineHandoff e r).actions = []
    ∧ (pipelineHandoff e r).data = []
    ∧ (pipelineHandoff e r).errors = ["Execution handoff could not be parsed.".toList]
    ∧ (pipelineHandoff e r).missing = ["executor_handoff_format".toList]
    ∧ (pipelineHandoff e r).followUp
        = some "Could you restate the request or provide more detail?".toList := by
  have hmain : pipelineHandoff e r
      = buildFallbackHandoff "Execution handoff could not be parsed.".toList none := by
    unfold pipelineHandoff
    simp [he, hr]
  rw [hmain]
  exact ⟨rfl, rfl, rfl, rfl, rfl, rfl, rfl⟩

/-- Witness for C4: both the executor text and the repair text are a plain
sentence with no handoff header. -/
theorem pipeline_fallback_guarantee_witness :
    (parseExecutionHandoff "I could not do that.".toList).ok = false
    ∧ (parseExecutionHandoff "Sorry, here it is again.".toList).ok = false
    ∧ (pipelineHandoff "I could not do that.".toList "Sorry, here it is again.".toList).status
        = .blocked
    ∧ (pipelineHandoff "I could not do that.".toList "Sorry, here it is again.".toList).errors
        = ["Execution handoff could not be parsed.".toList] :=
  ⟨by decide, by decide,
   (pipeline_fallback_guarantee "I could not do that.".toList
      "Sorry, here it is again.".toList (by decide) (by decide)).2.1,
   (pipeline_fallback_guarantee "I could not do that.".toList
      "Sorry, here it is again.".toList (by decide) (by decide)).2.2.2.2.1⟩

/-- A handoff document that is well-formed except that its status value is
`planning`. -/
def docPlanningStatus : Str :=
  ("EXECUTION_HANDOFF\nStatus: planning\nActions:\n- none\nData:\n- none\n"
    ++ "Errors:\n- none\nMissing:\n- none\nFollow-up:\n- none\nDraft:\n- none").toList

/-- Counterexample to C2 as stated: `planning` is not an accepted status
value — the parser records `Invalid status "planning".`, reports the status
as missing, and falls back to `blocked`. -/
theorem status_planning_rejected :
    (parseExecutionHandoff docPlanningStatus).ok = false
    ∧ (parseExecutionHandoff docPlanningStatus).errors
        = [invalidStatusMsg "planning".toList]
    ∧ (parseExecutionHandoff docPlanningStatus).missingFields = ["status".toList]
    ∧ (parseExecutionHandoff docPlanningStatus).handoff.map ExecutionHandoff.status
        = some .blocked :=
  ⟨rfl, rfl, rfl, rfl⟩

/-- A document whose only body content sits under `Plan:` and
`Verification:` headers. -/
def docPlanVerification : Str :=
  "EXECUTION_HANDOFF\nPlan:\n- step one\nVerification:\n- ran tests".toList

/-- Counterexample to C3 as stated: `Plan` and `Verification` are not
recognized section keys; a document whose body consists of those two
sections parses exactly like an empty body — no field receives the items
and all six required sections are reported missing. -/
theorem plan_verification_not_recognized :
    lookupSection "Plan".toList = none
    ∧ lookupSection "Verification".toList = none
    ∧ (parseExecutionHandoff docPlanVerification).handoff
        = some ⟨.blocked, [], [], [], [], none, none, docPlanVerification⟩
    ∧ (parseExecutionHandoff docPlanVerification).missingFields
        = ["status".toList, "actions".toList, "data".toList, "errors".toList,
           "missing".toList, "followUp".toList, "draft".toList] :=
  ⟨rfl, rfl, rfl, rfl⟩

/-- A handoff whose action item is the string `None` (non-empty and not
equal, as a string, to `none`). -/
def noneItemHandoff : ExecutionHandoff :=
  ⟨.done, ["None".toList], [], [], [], some "q".toList, some "d".toList, []⟩

/-- Counterexample to C5 as stated: the claim's hypotheses admit the item
`None`, but the codec's `isNone` test is case-insensitive, so the item is
dropped by the round trip. -/
theorem roundtrip_drops_capital_none :
    noneItemHandoff.actions = ["None".toList]
    ∧ ("None".toList : Str) ≠ "none".toList
    ∧ (parseExecutionHandoff (formatExecutionHandoff noneItemHandoff)).handoff.map
        ExecutionHandoff.actions = some [] :=
  ⟨rfl, by decide, rfl⟩

/-- C2 (amended): the codec accepts exactly the three status values `done`,
`needs_info`, `blocked` as valid on a `Status:` line (any other value is
recorded as an invalid-status error and does not set the status), and
whenever the parse result reports the status among its missing fields the
returned handoff's status is `blocked`. -/
theorem handoff_status_domain :
    (∀ (st : ParseState) (rawLine cand : Str),
      trim rawLine ≠ [] →
      statusCapture (trim rawLine) = some cand →
      ((toLowerStr cand = "done".toList →
          (processLine st rawLine).status = some .done)
       ∧ (toLowerStr cand = "needs_info".toList →
          (processLine st rawLine).status = some .needs_info)
       ∧ (toLowerStr cand = "blocked".toList →
          (processLine st rawLine).status = some .blocked)
       ∧ (toLowerStr cand ≠ "done".toList → toLowerStr cand ≠ "needs_info".toList →
          toLowerStr cand ≠ "blocked".toList →
          (processLine st rawLine).status = st.status
          ∧ (processLine st rawLine).errs = st.errs ++ [invalidStatusMsg cand])))
    ∧ (∀ (raw : Str) (h : ExecutionHandoff),
        (parseExecutionHandoff raw).handoff = some h →
        "status".toList ∈ (parseExecutionHandoff raw).missingFields →
        h.status = .blocked) := by
  constructor
  · intro st rawLine cand hne hcap
    unfold processLine
    simp only [hcap, if_neg hne]
    refine ⟨?_, ?_, ?_, ?_⟩
    · intro hv
      rw [hv, if_pos rfl]
    · intro hv
      rw [hv, if_neg (by decide), if_pos rfl]
    · intro hv
      rw [hv, if_neg (by decide), if_neg (by decide), if_pos rfl]
    · intro hd hn hb
      rw [if_neg hd, if_neg hn, if_neg hb]
      exact ⟨rfl, rfl⟩
  · intro raw h hh hmem
    simp only [parseExecutionHandoff] at hh hmem
    cases hidx : findHeaderIndex (splitLines raw) with
    | none =>
      rw [hidx] at hh
      exact absurd hh (by simp)
    | some i =>
      rw [hidx] at hh hmem
      dsimp only at hh hmem
      cases hs : (((splitLines raw).drop (i + 1)).foldl processLine initState).status with
      | some s =>
        rw [hs] at hmem
        simp only [Option.isSome_some, if_true, List.nil_append] at hmem
        obtain ⟨k, -, hk⟩ := List.mem_map.1 hmem
        cases k <;> exact absurd hk (by decide)
      | none =>
        rw [hs] at hh
        simp only [Option.some.injEq] at hh
        rw [← hh]
        rfl

/-- Witness for C2: a case-insensitive `Status: DONE` line sets the status,
and a document with no status line yields a `blocked` handoff. -/
theorem handoff_status_domain_witness :
    (processLine initState "Status: DONE".toList).status = some .done
    ∧ (parseExecutionHandoff "EXECUTION_HANDOFF".toList).handoff.map
        ExecutionHandoff.status = some .blocked := by
  constructor
  · exact (handoff_status_domain.1 initState "Status: DONE".toList "DONE".toList
      (by decide) (by decide)).1 (by decide)
  · have hh : (parseExecutionHandoff "EXECUTION_HANDOFF".toList).handoff
        = some ⟨.blocked, [], [], [], [], none, none, "EXECUTION_HANDOFF".toList⟩ := rfl
    have hb := handoff_status_domain.2 "EXECUTION_HANDOFF".toList
      ⟨.blocked, [], [], [], [], none, none, "EXECUTION_HANDOFF".toList⟩ hh (by decide)
    rw [hh, Option.map_some']

set_option maxRecDepth 8000

/-- A document exercising each recognized section key with unusual casing,
inline values and bulleted items. -/
def docAllSections : Str :=
  ("execution_handoff\nsTaTuS: needs_info\nACTIONS: first action\n- second action\n"
    ++ "Data:\n- a fact\nerrors:\n- an error\nMissing:\n- a gap\n"
    ++ "Follow Up: one question\nDRAFT:\n- a draft line").toList

/-- C3 (amended): the parser recognizes exactly `Status`, `Actions`, `Data`,
`Errors`, `Missing`, `Follow-up` (also written `follow up` / `followup`) and
`Draft` as section starts, case-insensitively; `Plan` and `Verification` are
not recognized — the handoff has no such fields and their headers start no
section. Items listed under recognized headers are recorded in the matching
fields. -/
theorem recognized_section_keys :
    (∀ label : Str,
      (lookupSection label = some .actions ↔ toLowerStr (trim label) = "actions".toList)
      ∧ (lookupSection label = some .data ↔ toLowerStr (trim label) = "data".toList)
      ∧ (lookupSection label = some .errors ↔ toLowerStr (trim label) = "errors".toList)
      ∧ (lookupSection label = some .missing ↔ toLowerStr (trim label) = "missing".toList)
      ∧ (lookupSection label = some .followUp ↔
          (toLowerStr (trim label) = "follow-up".toList
            ∨ toLowerStr (trim label) = "follow up".toList
            ∨ toLowerStr (trim label) = "followup".toList))
      ∧ (lookupSection label = some .draft ↔ toLowerStr (trim label) = "draft".toList))
    ∧ lookupSection "plan".toList = none
    ∧ lookupSection "verification".toList = none
    ∧ (parseExecutionHandoff docAllSections).handoff
        = some ⟨.needs_info,
                ["first action".toList, "second action".toList],
                ["a fact".toList], ["an error".toList], ["a gap".toList],
                some "one question".toList, some "a draft line".toList,
                docAllSections⟩
    ∧ (parseExecutionHandoff docAllSections).ok = true := by
  refine ⟨?_, rfl, rfl, rfl, rfl⟩
  intro label
  simp only [lookupSection]
  split_ifs with h1 h2 h3 h4 h5 h6 h7 h8 <;> simp_all

/-- Witness for C3 at concrete labels: odd casing and spacing for
`Follow-Up` is recognized; `Verification` is not. -/
theorem recognized_section_keys_witness :
    lookupSection "  Follow-Up ".toList = some .followUp
    ∧ lookupSection "Verification".toList = none := by
  constructor
  · exact ((recognized_section_keys.1 "  Follow-Up ".toList).2.2.2.2.1).mpr
      (Or.inl (by decide))
  · rfl

/-! ## Round-trip support: line splitting inverts joining -/

theorem joinNl_cons (a : Str) (ls : List Str) (h : ls ≠ []) :
    joinNl (a :: ls) = a ++ '\n' :: joinNl ls := by
  cases ls with
  | nil => exact absurd rfl h
  | cons b bs => rfl

theorem joinNl_append (xs ys : List Str) (hx : xs ≠ []) (hy : ys ≠ []) :
    joinNl (xs ++ ys) = joinNl xs ++ '\n' :: joinNl ys := by
  induction xs with
  | nil => exact absurd rfl hx
  | cons a rest ih =>
    cases rest with
    | nil =>
      rw [List.singleton_append, joinNl_cons a ys hy]
      rfl
    | cons b bs =>
      rw [List.cons_append, joinNl_cons a ((b :: bs) ++ ys) (by simp),
          joinNl_cons a (b :: bs) (by simp), ih (by simp)]
      simp

theorem splitOnNl_ne_nil (s : Str) : splitOnNl s ≠ [] := by
  cases s with
  | nil => simp [splitOnNl]
  | cons c rest =>
    unfold splitOnNl
    cases h : splitOnNl rest with
    | nil => simp
    | cons l ls => by_cases hc : c = '\n' <;> simp [hc]

theorem splitOnNl_no_nl (a : Str) (h : '\n' ∉ a) : splitOnNl a = [a] := by
  induction a with
  | nil => rfl
  | cons c rest ih =>
    have hc : c ≠ '\n' := fun hh => h (hh ▸ List.mem_cons_self c rest)
    have hrest : '\n' ∉ rest := fun hh => h (List.mem_cons_of_mem c hh)
    unfold splitOnNl
    rw [ih hrest]
    simp [hc]

theorem splitOnNl_append_nl (a rest : Str) (h : '\n' ∉ a) :
    splitOnNl (a ++ '\n' :: rest) = a :: splitOnNl rest := by
  induction a with
  | nil =>
    show splitOnNl ('\n' :: rest) = [] :: splitOnNl rest
    conv_lhs => unfold splitOnNl
    cases hr : splitOnNl rest with
    | nil => exact absurd hr (splitOnNl_ne_nil rest)
    | cons l ls => simp
  | cons c a' ih =>
    have hc : c ≠ '\n' := fun hh => h (hh ▸ List.mem_cons_self c a')
    have ha' : '\n' ∉ a' := fun hh => h (List.mem_cons_of_mem c hh)
    show splitOnNl (c :: (a' ++ '\n' :: rest)) = (c :: a') :: splitOnNl rest
    conv_lhs => unfold splitOnNl
    rw [ih ha']
    simp [hc]

theorem splitLines_joinNl (L : List Str) (hL : L ≠ [])
    (h : ∀ l ∈ L, '\n' ∉ l ∧ dropTrailingCr l = l) :
    splitLines (joinNl L) = L := by
  induction L with
  | nil => exact absurd rfl hL
  | cons a rest ih =>
    cases rest with
    | nil =>
      obtain ⟨hnl, hcr⟩ := h a (by simp)
      show splitLines (joinNl [a]) = [a]
      unfold splitLines
      rw [show joinNl [a] = a from rfl, splitOnNl_no_nl a hnl]
      simp [hcr]
    | cons b bs =>
      obtain ⟨hnl, hcr⟩ := h a (by simp)
      rw [joinNl_cons a (b :: bs) (by simp)]
      unfold splitLines
      rw [splitOnNl_append_nl a (joinNl (b :: bs)) hnl]
      have := ih (by simp) (fun l hl => h l (List.mem_cons_of_mem a hl))
      unfold splitLines at this
      simp only [List.map_cons, hcr, this]

/-! ## Round-trip support: trimming facts for well-behaved items -/

/-- Items (and scalar values) for which the codec round trip is exact:
non-empty, single-line, already trimmed on both sides, and not a
case-insensitive spelling of the `none` sentinel. -/
def GoodItem (s : Str) : Prop :=
  s ≠ [] ∧ trimLeft s = s ∧ trimRight s = s ∧ '\n' ∉ s
    ∧ toLowerStr s ≠ "none".toList

instance (s : Str) : Decidable (GoodItem s) := by
  unfold GoodItem
  infer_instance

theorem trimLeft_cons_of_not_ws (c : Char) (l : Str) (hc : isWs c = false) :
    trimLeft (c :: l) = c :: l := by
  simp [trimLeft, List.dropWhile_cons, hc]

theorem trimRight_fix_head_rev (s : Str) (hs : trimRight s = s) (hne : s ≠ []) :
    ∃ c m, s.reverse = c :: m ∧ isWs c = false := by
  have hrev : s.reverse.dropWhile isWs = s.reverse := by
    have := congrArg List.reverse hs
    rwa [trimRight, List.reverse_reverse] at this
  cases hh : s.reverse with
  | nil => exact absurd (by simpa using congrArg List.reverse hh) hne
  | cons c m =>
    refine ⟨c, m, rfl, ?_⟩
    by_contra hcw
    have hcw' : isWs c = true := by
      cases hx : isWs c
      · exact absurd hx hcw
      · rfl
    rw [hh, List.dropWhile_cons, hcw'] at hrev
    have hlen := congrArg List.length hrev
    have := (List.dropWhile_sublist (l := m) isWs).length_le
    simp at hlen
    omega

theorem trimRight_append_fix (a t : Str) (ht : trimRight t = t) (hne : t ≠ []) :
    trimRight (a ++ t) = a ++ t := by
  obtain ⟨c, m, hrev, hcw⟩ := trimRight_fix_head_rev t ht hne
  have ht' : t = m.reverse ++ [c] := by
    have := congrArg List.reverse hrev
    simpa using this
  unfold trimRight
  rw [List.reverse_append, hrev]
  simp [List.dropWhile_cons, hcw, ht']

theorem trim_bullet_item (i : Str) (hi : GoodItem i) :
    trim ('-' :: ' ' :: i) = '-' :: ' ' :: i := by
  obtain ⟨hne, _, htr, _, _⟩ := hi
  unfold trim
  rw [show ('-' :: ' ' :: i : Str) = ['-', ' '] ++ i from rfl,
      trimRight_append_fix ['-', ' '] i htr hne]
  exact trimLeft_cons_of_not_ws '-' (' ' :: i) (by decide)

theorem trim_space_item (i : Str) (hi : GoodItem i) : trim (' ' :: i) = i := by
  obtain ⟨hne, htl, htr, _, _⟩ := hi
  unfold trim
  rw [show (' ' :: i : Str) = [' '] ++ i from rfl,
      trimRight_append_fix [' '] i htr hne]
  show trimLeft ([' '] ++ i) = i
  rw [show ([' '] ++ i : Str) = ' ' :: i from rfl]
  unfold trimLeft
  rw [List.dropWhile_cons]
  simp only [show isWs ' ' = true from rfl, if_true]
  exact htl

theorem trim_item_fix (i : Str) (hi : GoodItem i) : trim i = i := by
  obtain ⟨_, htl, htr, _, _⟩ := hi
  unfold trim
  rw [htr, htl]

theorem stripBullet_bullet_item (i : Str) (hi : GoodItem i) :
    stripBullet ('-' :: ' ' :: i) = i := by
  unfold stripBullet
  simp only [if_pos (by decide : ('-' = '-' || '-' = '*' || '-' = bulletGlyph) = true)]
  exact trim_space_item i hi

theorem isNoneItem_false (i : Str) (hi : GoodItem i) : isNoneItem i = false := by
  unfold isNoneItem
  rw [trim_item_fix i hi]
  have := hi.2.2.2.2
  cases hx : (decide (toLowerStr i = "none".toList) : Bool)
  · simp [hx]
  · exact absurd (of_decide_eq_true hx) this

/-! ## Round-trip support: how the scan loop treats each produced line -/

theorem statusCapture_head_dash (rest : Str) :
    statusCapture ('-' :: rest) = none := by
  unfold statusCapture
  rw [if_neg]
  rw [show toLowerStr ('-' :: rest) = '-' :: toLowerStr rest from rfl,
      show ("status:".toList : Str) = 's' :: "tatus:".toList from rfl,
      List.isPrefixOf_cons₂]
  simp

theorem trim_cons_of_not_ws (c : Char) (l : Str) (hc : isWs c = false) :
    ∃ m, trim (c :: l) = c :: m := by
  unfold trim trimRight
  rw [show ((c :: l : Str)).reverse = l.reverse ++ [c] from by simp,
      List.dropWhile_append]
  split
  · refine ⟨[], ?_⟩
    simp [List.dropWhile_cons, hc, trimLeft]
  · refine ⟨(l.reverse.dropWhile isWs).reverse, ?_⟩
    rw [List.reverse_append,
        show ([c] : Str).reverse = [c] from rfl,
        show ([c] : Str) ++ (l.reverse.dropWhile isWs).reverse
          = c :: (l.reverse.dropWhile isWs).reverse from rfl]
    exact trimLeft_cons_of_not_ws c _ hc

theorem lookupSection_head_dash (label : Str) (hl : ∃ m, trim label = '-' :: m) :
    lookupSection label = none := by
  obtain ⟨m, hm⟩ := hl
  simp only [lookupSection, hm]
  rw [show toLowerStr ('-' :: m) = '-' :: toLowerStr m from rfl]
  simp [List.cons.injEq]

theorem sectionSplit_label (line label rest : Str)
    (h : sectionSplit line = some (label, rest)) :
    label = line.takeWhile isLabelChar := by
  unfold sectionSplit at h
  split at h
  · split at h
    · injection h with h'
      exact (congrArg Prod.fst h').symm
    · cases h
  · cases h

theorem processLine_bullet_item (st : ParseState) (sec : SectionKey) (i : Str)
    (hcur : st.currentSection = some sec) (hi : GoodItem i) :
    processLine st ('-' :: ' ' :: i) = { st with acc := appendItem sec i st.acc } := by
  have hline := trim_bullet_item i hi
  have hitem : itemLine st ('-' :: ' ' :: i) = { st with acc := appendItem sec i st.acc } := by
    unfold itemLine
    rw [hcur]
    dsimp only
    rw [stripBullet_bullet_item i hi, if_neg hi.1]
  unfold processLine
  simp only [hline]
  rw [if_neg (by simp : ¬('-' :: ' ' :: i : Str) = [])]
  rw [statusCapture_head_dash (' ' :: i)]
  cases hsp : sectionSplit ('-' :: ' ' :: i) with
  | none => exact hitem
  | some p =>
    obtain ⟨label, rest⟩ := p
    have hlabel := sectionSplit_label _ _ _ hsp
    have hlabel' : label = '-' :: ' ' :: i.takeWhile isLabelChar := by
      rw [hlabel]
      rfl
    have hlook : lookupSection label = none := by
      apply lookupSection_head_dash
      rw [hlabel']
      exact trim_cons_of_not_ws '-' _ (by decide)
    simp only [hlook]
    exact hitem

theorem processLine_none_line (st : ParseState) :
    processLine st "- none".toList = st := by
  obtain ⟨a, b, c, d, e⟩ := st
  cases b <;> rfl

theorem processLine_header_actions (st : ParseState) :
    processLine st "Actions:".toList
      = { st with currentSection := some .actions,
                  sectionsSeen := addSeen .actions st.sectionsSeen } := rfl

theorem processLine_header_data (st : ParseState) :
    processLine st "Data:".toList
      = { st with currentSection := some .data,
                  sectionsSeen := addSeen .data st.sectionsSeen } := rfl

theorem processLine_header_errors (st : ParseState) :
    processLine st "Errors:".toList
      = { st with currentSection := some .errors,
                  sectionsSeen := addSeen .errors st.sectionsSeen } := rfl

theorem processLine_header_missing (st : ParseState) :
    processLine st "Missing:".toList
      = { st with currentSection := some .missing,
                  sectionsSeen := addSeen .missing st.sectionsSeen } := rfl

theorem processLine_header_followUp (st : ParseState) :
    processLine st "Follow-up:".toList
      = { st with currentSection := some .followUp,
                  sectionsSeen := addSeen .followUp st.sectionsSeen } := rfl

theorem processLine_header_draft (st : ParseState) :
    processLine st "Draft:".toList
      = { st with currentSection := some .draft,
                  sectionsSeen := addSeen .draft st.sectionsSeen } := rfl

theorem processLine_status_line (st : ParseState) (s : Status) :
    processLine st ("Status: ".toList ++ statusText s)
      = { st with status := some s, currentSection := none } := by
  cases s <;> rfl

/-- The individual lines `formatList` contributes to the output. -/
def bulletLines (items : List Str) : List Str :=
  if items = [] then ["- none".toList]
  else items.map (fun i => '-' :: ' ' :: i)

/-- The single line `formatOptional` contributes to the output. -/
def optionalLine (v : Option Str) : Str :=
  match v with
  | some s => if s = [] then "- none".toList else '-' :: ' ' :: s
  | none => "- none".toList

/-- The serialized handoff as a flat list of lines. -/
def handoffLines (h : ExecutionHandoff) : List Str :=
  "EXECUTION_HANDOFF".toList
    :: ("Status: ".toList ++ statusText h.status)
    :: "Actions:".toList
    :: (bulletLines h.actions
      ++ "Data:".toList
      :: (bulletLines h.data
        ++ "Errors:".toList
        :: (bulletLines h.errors
          ++ "Missing:".toList
          :: (bulletLines h.missing
            ++ "Follow-up:".toList
            :: optionalLine h.followUp
            :: "Draft:".toList
            :: optionalLine h.draft
            :: []))))

theorem bulletLines_ne_nil (items : List Str) : bulletLines items ≠ [] := by
  unfold bulletLines
  split
  · simp
  · rename_i hne
    simp [hne]

theorem formatList_eq_joinNl (items : List Str) :
    formatList items = joinNl (bulletLines items) := by
  unfold formatList bulletLines
  split
  · rfl
  · rename_i hne
    cases items with
    | nil => exact absurd rfl hne
    | cons a rest => rfl

theorem formatOptional_eq_optionalLine (v : Option Str) :
    formatOptional v = optionalLine v := rfl

theorem joinNl_singleton (a : Str) : joinNl [a] = a := rfl

theorem formatExecutionHandoff_eq_joinNl (h : ExecutionHandoff) :
    formatExecutionHandoff h = joinNl (handoffLines h) := by
  have hA := bulletLines_ne_nil h.actions
  have hD := bulletLines_ne_nil h.data
  have hE := bulletLines_ne_nil h.errors
  have hM := bulletLines_ne_nil h.missing
  unfold formatExecutionHandoff handoffLines
  rw [formatList_eq_joinNl h.actions, formatList_eq_joinNl h.data,
      formatList_eq_joinNl h.errors, formatList_eq_joinNl h.missing,
      formatOptional_eq_optionalLine h.followUp,
      formatOptional_eq_optionalLine h.draft]
  conv_lhs =>
    rw [joinNl_cons _ _ (by simp), joinNl_cons _ _ (by simp), joinNl_cons _ _ (by simp),
        joinNl_cons _ _ (by simp), joinNl_cons _ _ (by simp), joinNl_cons _ _ (by simp),
        joinNl_cons _ _ (by simp), joinNl_cons _ _ (by simp), joinNl_cons _ _ (by simp),
        joinNl_cons _ _ (by simp), joinNl_cons _ _ (by simp), joinNl_cons _ _ (by simp),
        joinNl_cons _ _ (by simp), joinNl_singleton]
  conv_rhs =>
    rw [joinNl_cons _ _ (by simp), joinNl_cons _ _ (by simp),
        joinNl_cons _ _ (by simp [hA]), joinNl_append _ _ hA (by simp),
        joinNl_cons _ _ (by simp [hD]), joinNl_append _ _ hD (by simp),
        joinNl_cons _ _ (by simp [hE]), joinNl_append _ _ hE (by simp),
        joinNl_cons _ _ (by simp [hM]), joinNl_append _ _ hM (by simp),
        joinNl_cons _ _ (by simp), joinNl_cons _ _ (by simp), joinNl_cons _ _ (by simp),
        joinNl_singleton]

/-- Repeated `appendItem` over a list of items. -/
def appendItems (sec : SectionKey) (items : List Str) (acc : Accumulators) : Accumulators :=
  items.foldl (fun a i => appendItem sec i a) acc

/-- The acc effect of one optional scalar line. -/
def scalarAppend (sec : SectionKey) (v : Option Str) (acc : Accumulators) : Accumulators :=
  match v with
  | none => acc
  | some s => appendItem sec s acc

theorem appendItem_good (sec : SectionKey) (i : Str) (hi : GoodItem i)
    (acc : Accumulators) :
    appendItem sec i acc
      = (match sec with
        | .actions => { acc with actions := acc.actions ++ [i] }
        | .data => { acc with data := acc.data ++ [i] }
        | .errors => { acc with errors := acc.errors ++ [i] }
        | .missing => { acc with missing := acc.missing ++ [i] }
        | .followUp => { acc with followUp := some (match acc.followUp with
            | some prev => prev ++ '\n' :: i
            | none => i) }
        | .draft => { acc with draft := some (match acc.draft with
            | some prev => prev ++ '\n' :: i
            | none => i) }) := by
  cases sec <;>
    (unfold appendItem
     rw [if_neg hi.1, isNoneItem_false i hi]
     simp)

theorem foldl_bullet_map (sec : SectionKey) :
    ∀ (items : List Str) (st : ParseState), st.currentSection = some sec →
      (∀ i ∈ items, GoodItem i) →
      List.foldl processLine st (items.map (fun i => '-' :: ' ' :: i))
        = { st with acc := appendItems sec items st.acc } := by
  intro items
  induction items with
  | nil => intro st _ _; rfl
  | cons x rest ih =>
    intro st hcur hall
    rw [List.map_cons, List.foldl_cons,
        processLine_bullet_item st sec x hcur (hall x (by simp))]
    have ih' := ih { st with acc := appendItem sec x st.acc } hcur
      (fun i hi => hall i (List.mem_cons_of_mem _ hi))
    rw [ih']
    rfl

theorem foldl_bulletLines (sec : SectionKey) (items : List Str) (st : ParseState)
    (hcur : st.currentSection = some sec) (hall : ∀ i ∈ items, GoodItem i) :
    List.foldl processLine st (bulletLines items)
      = { st with acc := appendItems sec items st.acc } := by
  unfold bulletLines
  split
  · rename_i hnil
    subst hnil
    rw [show (["- none".toList] : List Str) = ["- none".toList] from rfl]
    rw [List.foldl_cons, processLine_none_line, List.foldl_nil]
    rfl
  · exact foldl_bullet_map sec items st hcur hall

theorem foldl_section_chunk (st : ParseState) (sec : SectionKey) (headerLine : Str)
    (hheader : processLine st headerLine
      = { st with currentSection := some sec,
                  sectionsSeen := addSeen sec st.sectionsSeen })
    (items : List Str) (hall : ∀ i ∈ items, GoodItem i) (rest : List Str) :
    List.foldl processLine st (headerLine :: (bulletLines items ++ rest))
      = List.foldl processLine
          { st with currentSection := some sec,
                    sectionsSeen := addSeen sec st.sectionsSeen,
                    acc := appendItems sec items st.acc } rest := by
  rw [List.foldl_cons, hheader, List.foldl_append,
      foldl_bulletLines sec items _ rfl hall]

theorem foldl_scalar_chunk (st : ParseState) (sec : SectionKey) (headerLine : Str)
    (hheader : processLine st headerLine
      = { st with currentSection := some sec,
                  sectionsSeen := addSeen sec st.sectionsSeen })
    (v : Option Str) (hv : ∀ s, v = some s → GoodItem s) (rest : List Str) :
    List.foldl processLine st (headerLine :: optionalLine v :: rest)
      = List.foldl processLine
          { st with currentSection := some sec,
                    sectionsSeen := addSeen sec st.sectionsSeen,
                    acc := scalarAppend sec v st.acc } rest := by
  rw [List.foldl_cons, hheader, List.foldl_cons]
  cases v with
  | none =>
    rw [show optionalLine none = "- none".toList from rfl, processLine_none_line]
    rfl
  | some s =>
    have hs := hv s rfl
    rw [show optionalLine (some s) = '-' :: ' ' :: s from by
          simp only [optionalLine]
          rw [if_neg hs.1],
        processLine_bullet_item _ sec s rfl hs]
    rfl

theorem appendItems_actions_eq :
    ∀ (items : List Str), (∀ i ∈ items, GoodItem i) →
      ∀ A D E M F Dr, appendItems .actions items ⟨A, D, E, M, F, Dr⟩
        = ⟨A ++ items, D, E, M, F, Dr⟩ := by
  intro items
  induction items with
  | nil => intro _ A D E M F Dr; simp [appendItems]
  | cons x rest ih =>
    intro hall A D E M F Dr
    unfold appendItems
    rw [List.foldl_cons, appendItem_good .actions x (hall x (by simp))]
    show appendItems .actions rest ⟨A ++ [x], D, E, M, F, Dr⟩ = _
    rw [ih (fun i hi => hall i (List.mem_cons_of_mem _ hi))]
    simp

theorem appendItems_data_eq :
    ∀ (items : List Str), (∀ i ∈ items, GoodItem i) →
      ∀ A D E M F Dr, appendItems .data items ⟨A, D, E, M, F, Dr⟩
        = ⟨A, D ++ items, E, M, F, Dr⟩ := by
  intro items
  induction items with
  | nil => intro _ A D E M F Dr; simp [appendItems]
  | cons x rest ih =>
    intro hall A D E M F Dr
    unfold appendItems
    rw [List.foldl_cons, appendItem_good .data x (hall x (by simp))]
    show appendItems .data rest ⟨A, D ++ [x], E, M, F, Dr⟩ = _
    rw [ih (fun i hi => hall i (List.mem_cons_of_mem _ hi))]
    simp

theorem appendItems_errors_eq :
    ∀ (items : List Str), (∀ i ∈ items, GoodItem i) →
      ∀ A D E M F Dr, appendItems .errors items ⟨A, D, E, M, F, Dr⟩
        = ⟨A, D, E ++ items, M, F, Dr⟩ := by
  intro items
  induction items with
  | nil => intro _ A D E M F Dr; simp [appendItems]
  | cons x rest ih =>
    intro hall A D E M F Dr
    unfold appendItems
    rw [List.foldl_cons, appendItem_good .errors x (hall x (by simp))]
    show appendItems .errors rest ⟨A, D, E ++ [x], M, F, Dr⟩ = _
    rw [ih (fun i hi => hall i (List.mem_cons_of_mem _ hi))]
    simp

theorem appendItems_missing_eq :
    ∀ (items : List Str), (∀ i ∈ items, GoodItem i) →
      ∀ A D E M F Dr, appendItems .missing items ⟨A, D, E, M, F, Dr⟩
        = ⟨A, D, E, M ++ items, F, Dr⟩ := by
  intro items
  induction items with
  | nil => intro _ A D E M F Dr; simp [appendItems]
  | cons x rest ih =>
    intro hall A D E M F Dr
    unfold appendItems
    rw [List.foldl_cons, appendItem_good .missing x (hall x (by simp))]
    show appendItems .missing rest ⟨A, D, E, M ++ [x], F, Dr⟩ = _
    rw [ih (fun i hi => hall i (List.mem_cons_of_mem _ hi))]
    simp

theorem scalarAppend_followUp_eq (v : Option Str) (hv : ∀ s, v = some s → GoodItem s)
    (A D E M : List Str) (Dr : Option Str) :
    scalarAppend .followUp v ⟨A, D, E, M, none, Dr⟩ = ⟨A, D, E, M, v, Dr⟩ := by
  cases v with
  | none => rfl
  | some s =>
    show appendItem .followUp s ⟨A, D, E, M, none, Dr⟩ = _
    rw [appendItem_good .followUp s (hv s rfl)]

theorem scalarAppend_draft_eq (v : Option Str) (hv : ∀ s, v = some s → GoodItem s)
    (A D E M : List Str) (F : Option Str) :
    scalarAppend .draft v ⟨A, D, E, M, F, none⟩ = ⟨A, D, E, M, F, v⟩ := by
  cases v with
  | none => rfl
  | some s =>
    show appendItem .draft s ⟨A, D, E, M, F, none⟩ = _
    rw [appendItem_good .draft s (hv s rfl)]

theorem dropTrailingCr_bullet (i : Str) (hi : GoodItem i) :
    dropTrailingCr ('-' :: ' ' :: i) = '-' :: ' ' :: i := by
  obtain ⟨hne, htl, htr, hnl, hnone⟩ := hi
  obtain ⟨c, m, hrev, hcw⟩ := trimRight_fix_head_rev i htr hne
  unfold dropTrailingCr
  rw [if_neg]
  intro hcon
  have h1 : ('-' :: ' ' :: i : Str).getLast? = i.getLast? := by
    cases i with
    | nil => exact absurd rfl hne
    | cons d ds => rw [List.getLast?_cons_cons, List.getLast?_cons_cons]
  have h2 : i.getLast? = some c := by
    rw [← List.head?_reverse, hrev]
    rfl
  rw [h1, h2] at hcon
  have : c = '\r' := by injection hcon
  rw [this] at hcw
  exact absurd hcw (by decide)

theorem bullet_no_nl (i : Str) (hi : GoodItem i) : '\n' ∉ ('-' :: ' ' :: i : Str) := by
  intro hmem
  rcases List.mem_cons.1 hmem with hc | hmem'
  · exact absurd hc.symm (by decide)
  · rcases List.mem_cons.1 hmem' with hc | hmem''
    · exact absurd hc.symm (by decide)
    · exact hi.2.2.2.1 hmem''

theorem bulletLines_wellFormed (items : List Str) (hall : ∀ i ∈ items, GoodItem i) :
    ∀ l ∈ bulletLines items, '\n' ∉ l ∧ dropTrailingCr l = l := by
  intro l hl
  unfold bulletLines at hl
  split at hl
  · simp only [List.mem_singleton] at hl
    subst hl
    exact ⟨by decide, by decide⟩
  · obtain ⟨i, hi, rfl⟩ := List.mem_map.1 hl
    have hgi := hall i hi
    exact ⟨bullet_no_nl i hgi, dropTrailingCr_bullet i hgi⟩

theorem optionalLine_wellFormed (v : Option Str) (hv : ∀ s, v = some s → GoodItem s) :
    '\n' ∉ optionalLine v ∧ dropTrailingCr (optionalLine v) = optionalLine v := by
  cases v with
  | none => exact ⟨by decide, by decide⟩
  | some s =>
    have hs := hv s rfl
    rw [show optionalLine (some s) = '-' :: ' ' :: s from by
          simp only [optionalLine]
          rw [if_neg hs.1]]
    exact ⟨bullet_no_nl s hs, dropTrailingCr_bullet s hs⟩

theorem statusLine_wellFormed (s : Status) :
    '\n' ∉ ("Status: ".toList ++ statusText s : Str)
    ∧ dropTrailingCr ("Status: ".toList ++ statusText s) = "Status: ".toList ++ statusText s := by
  cases s <;> exact ⟨by decide, by decide⟩

theorem handoffLines_wellFormed (h : ExecutionHandoff)
    (ha : ∀ i ∈ h.actions, GoodItem i) (hd : ∀ i ∈ h.data, GoodItem i)
    (he : ∀ i ∈ h.errors, GoodItem i) (hm : ∀ i ∈ h.missing, GoodItem i)
    (hf : ∀ s, h.followUp = some s → GoodItem s)
    (hdr : ∀ s, h.draft = some s → GoodItem s) :
    ∀ l ∈ handoffLines h, '\n' ∉ l ∧ dropTrailingCr l = l := by
  intro l hl
  unfold handoffLines at hl
  simp only [List.mem_cons, List.mem_append] at hl
  rcases hl with rfl | rfl | rfl | hl
  · exact ⟨by decide, by decide⟩
  · exact statusLine_wellFormed h.status
  · exact ⟨by decide, by decide⟩
  rcases hl with hl | rfl | hl
  · exact bulletLines_wellFormed h.actions ha l hl
  · exact ⟨by decide, by decide⟩
  rcases hl with hl | rfl | hl
  · exact bulletLines_wellFormed h.data hd l hl
  · exact ⟨by decide, by decide⟩
  rcases hl with hl | rfl | hl
  · exact bulletLines_wellFormed h.errors he l hl
  · exact ⟨by decide, by decide⟩
  rcases hl with hl | rfl | rfl | rfl | hl
  · exact bulletLines_wellFormed h.missing hm l hl
  · exact ⟨by decide, by decide⟩
  · exact optionalLine_wellFormed h.followUp hf
  · exact ⟨by decide, by decide⟩
  · rcases hl with rfl | hl
    · exact optionalLine_wellFormed h.draft hdr
    · cases hl

theorem schemaIssues_nil (hh : ExecutionHandoff) : schemaIssues hh = [] := by
  cases hst : hh.status <;> simp [schemaIssues, hst]

/-- C5 (amended): for every handoff whose list items and (present) scalar
values are non-empty, single-line, whitespace-trimmed strings that are not
a case-insensitive spelling of `none`, parsing the serialized form
succeeds and reproduces the status, the four item lists in order, and the
`followUp` and `draft` scalars (the `raw` field holds the serialized text). -/
theorem handoff_roundtrip (h : ExecutionHandoff)
    (ha : ∀ i ∈ h.actions, GoodItem i) (hd : ∀ i ∈ h.data, GoodItem i)
    (he : ∀ i ∈ h.errors, GoodItem i) (hm : ∀ i ∈ h.missing, GoodItem i)
    (hf : ∀ s, h.followUp = some s → GoodItem s)
    (hdr : ∀ s, h.draft = some s → GoodItem s) :
    parseExecutionHandoff (formatExecutionHandoff h)
      = ⟨true,
         some ⟨h.status, h.actions, h.data, h.errors, h.missing, h.followUp,
               h.draft, formatExecutionHandoff h⟩,
         [], []⟩ := by
  have hlines : splitLines (formatExecutionHandoff h) = handoffLines h := by
    rw [formatExecutionHandoff_eq_joinNl]
    exact splitLines_joinNl _ (by simp [handoffLines])
      (handoffLines_wellFormed h ha hd he hm hf hdr)
  have hfind : findHeaderIndex (handoffLines h) = some 0 := rfl
  have hdrop : (handoffLines h).drop (0 + 1)
      = ("Status: ".toList ++ statusText h.status)
        :: "Actions:".toList
        :: (bulletLines h.actions
          ++ "Data:".toList
          :: (bulletLines h.data
            ++ "Errors:".toList
            :: (bulletLines h.errors
              ++ "Missing:".toList
              :: (bulletLines h.missing
                ++ "Follow-up:".toList
                :: optionalLine h.followUp
                :: "Draft:".toList
                :: optionalLine h.draft
                :: [])))) := rfl
  unfold parseExecutionHandoff
  simp only [hlines, hfind]
  rw [hdrop]
  rw [List.foldl_cons, processLine_status_line initState h.status]
  rw [foldl_section_chunk _ .actions _ (processLine_header_actions _) h.actions ha _]
  rw [foldl_section_chunk _ .data _ (processLine_header_data _) h.data hd _]
  rw [foldl_section_chunk _ .errors _ (processLine_header_errors _) h.errors he _]
  rw [foldl_section_chunk _ .missing _ (processLine_header_missing _) h.missing hm _]
  rw [foldl_scalar_chunk _ .followUp _ (processLine_header_followUp _) h.followUp hf _]
  rw [foldl_scalar_chunk _ .draft _ (processLine_header_draft _) h.draft hdr _]
  rw [List.foldl_nil]
  dsimp only [initState]
  rw [schemaIssues_nil]
  rw [appendItems_actions_eq h.actions ha]
  rw [appendItems_data_eq h.data hd]
  rw [appendItems_errors_eq h.errors he]
  rw [appendItems_missing_eq h.missing hm]
  rw [scalarAppend_followUp_eq h.followUp hf]
  rw [scalarAppend_draft_eq h.draft hdr]
  simp
  decide

/-- Sample handoff for the round-trip witness: items include inner colons
and bullets, the draft is absent. -/
def roundtripSample : ExecutionHandoff :=
  ⟨.needs_info,
   ["created issue ENG-1".toList, "posted update: see link".toList],
   [],
   ["rate limited once".toList],
   ["repo name".toList],
   some "which repo?".toList, none, []⟩

/-- Witness for C5: the round trip reproduces `roundtripSample`'s fields. -/
theorem handoff_roundtrip_witness :
    parseExecutionHandoff (formatExecutionHandoff roundtripSample)
      = ⟨true,
         some ⟨roundtripSample.status, roundtripSample.actions, roundtripSample.data,
               roundtripSample.errors, roundtripSample.missing, roundtripSample.followUp,
               roundtripSample.draft, formatExecutionHandoff roundtripSample⟩,
         [], []⟩ :=
  handoff_roundtrip roundtripSample (by decide) (by decide) (by decide) (by decide)
    (fun s hs => by
      injection hs with hh
      rw [← hh]
      decide)
    (fun s hs => nomatch hs)

/-! ## Backoff engine (`src/lib/retry.ts`) -/

/-- `RetryOptions` with the `??`-defaults already applied
(`maxAttempts` 3, `baseDelayMs` 500, `maxDelayMs` 5000, `jitterMs` 250). -/
structure RetryOptions where
  maxAttempts : Nat
  baseDelayMs : Int
  maxDelayMs : Int
  jitterMs : Int
deriving DecidableEq, Repr

/-- The default option values of `withRetry`. -/
def defaultRetryOptions : RetryOptions := ⟨3, 500, 5000, 250⟩

/-- The classification-relevant shape of a thrown error: the resolved
numeric status (`error.status ?? error.statusCode ?? error.code`), the
string `error.code`, and the normalized (lower-cased) response headers. -/
structure ErrInfo where
  status : Option Int
  code : Option Str
  headers : List (Str × Str)
deriving DecidableEq, Repr

/-- `RETRYABLE_STATUS`. -/
def RETRYABLE_STATUS : List Int := [408, 429, 500, 502, 503, 504]

/-- `RETRYABLE_CODES`. -/
def RETRYABLE_CODES : List Str :=
  ["ECONNRESET".toList, "ETIMEDOUT".toList, "EAI_AGAIN".toList, "ENOTFOUND".toList]

/-- Normalized header lookup. -/
def headerGet (headers : List (Str × Str)) (name : Str) : Option Str :=
  alistGet name headers

/-- `isRateLimitError`: HTTP 429, or 403 with `x-ratelimit-remaining: 0`. -/
def isRateLimitError (status : Option Int) (headers : List (Str × Str)) : Bool :=
  if status = some 429 then true
  else if status = some 403
      ∧ headerGet headers "x-ratelimit-remaining".toList = some "0".toList then true
  else false

/-- Plain decimal parse, modelling JavaScript `Number(value)` on the
digit-string header values used here (HTTP-date `Retry-After` values go
through `Date.parse` against the wall clock and are modelled as absent). -/
def parseDecimal? (s : Str) : Option Nat :=
  if s ≠ [] ∧ s.all Char.isDigit then
    some (s.foldl (fun n c => n * 10 + (c.toNat - 48)) 0)
  else none

/-- `parseRetryAfterMs` on the numeric branch: seconds to milliseconds. -/
def parseRetryAfterMs (value : Option Str) : Option Int :=
  match value with
  | none => none
  | some v =>
    match parseDecimal? v with
    | some seconds => some (max 0 ((seconds : Int) * 1000))
    | none => none

/-- `parseRateLimitResetMs`: epoch seconds against `Date.now()`. -/
def parseRateLimitResetMs (now : Int) (value : Option Str) : Option Int :=
  match value with
  | none => none
  | some v =>
    match parseDecimal? v with
    | some resetSeconds => some (max 0 ((resetSeconds : Int) * 1000 - now))
    | none => none

/-- The `retryAfter ?? resetAfter` server-provided wait of one error. -/
def serverHint (now : Int) (e : ErrInfo) : Option Int :=
  (parseRetryAfterMs (headerGet e.headers "retry-after".toList)).orElse
    (fun _ => parseRateLimitResetMs now (headerGet e.headers "x-ratelimit-reset".toList))

/-- `shouldRetry` classification of one error. -/
def shouldRetryErr (e : ErrInfo) : Bool :=
  isRateLimitError e.status e.headers
  || (match e.status with | some s => s ∈ RETRYABLE_STATUS | none => false)
  || (match e.code with | some c => c ∈ RETRYABLE_CODES | none => false)

/-- `Math.ceil(delayMs / 1000)` for the non-negative delays involved. -/
def ceilSeconds (d : Int) : Int := (d + 999) / 1000

/-- The observable result of `withRetry`: the value or terminal error,
together with the list of delays slept (in order). `rateLimited` stands
for the thrown `IntegrationRateLimitError`, carrying `retryAfterSeconds`. -/
inductive RetryOutcome (T : Type) where
  | success : T → List Int → RetryOutcome T
  | failure : ErrInfo → List Int → RetryOutcome T
  | rateLimited : Int → List Int → RetryOutcome T
deriving DecidableEq, Repr

/-- The slept delays of an outcome. -/
def sleepsOf : RetryOutcome T → List Int
  | .success _ s => s
  | .failure _ s => s
  | .rateLimited _ s => s

/-- The `while (true)` loop of `withRetry`. `op k` is the outcome of the
`k`-th (0-based) call of `operation`; `jit a` is the value of
`Math.floor(Math.random() * jitterMs)` observed on attempt `a`; `fuel`
bounds the recursion and equals the remaining allowed calls — the loop
retries only while `attempt < maxAttempts`, so with initial fuel
`maxAttempts` the fuel-exhausted base case (which performs a final
non-retried call) is reached only in the degenerate `maxAttempts = 0`
configuration. -/
def withRetryGo (op : Nat → Except ErrInfo T) (jit : Nat → Int) (now : Int)
    (opts : RetryOptions) : Nat → Nat → List Int → RetryOutcome T
  | attempt, 0, sleeps =>
    match op attempt with
    | .ok v => .success v sleeps
    | .error e => .failure e sleeps
  | attempt, fuel + 1, sleeps =>
    match op attempt with
    | .ok v => .success v sleeps
    | .error e =>
      let attempt' := attempt + 1
      let rateLimit := isRateLimitError e.status e.headers
      let hint := serverHint now e
      if shouldRetryErr e = false ∨ attempt' ≥ opts.maxAttempts then
        if rateLimit = true then
          match hint with
          | some delayMs =>
            if delayMs ≠ 0 ∧ delayMs > opts.maxDelayMs then
              .rateLimited (ceilSeconds delayMs) sleeps
            else .failure e sleeps
          | none => .failure e sleeps
        else .failure e sleeps
      else
        let backoff := min opts.maxDelayMs (opts.baseDelayMs * 2 ^ (attempt' - 1))
        let delayMs := min opts.maxDelayMs (hint.getD backoff + jit attempt')
        if rateLimit = true ∧ delayMs > opts.maxDelayMs then
          .rateLimited (ceilSeconds delayMs) sleeps
        else withRetryGo op jit now opts attempt' fuel (sleeps ++ [delayMs])

/-- `withRetry`, observed as an outcome plus the slept delays. -/
def withRetry (op : Nat → Except ErrInfo T) (jit : Nat → Int) (now : Int)
    (opts : RetryOptions) : RetryOutcome T :=
  withRetryGo op jit now opts 0 opts.maxAttempts []

/-- C1 (code evaluation at the failing input): an operation that always
fails with HTTP 429 and `Retry-After: 10` (10 s > `maxDelayMs`/1000 = 5 s)
under the default options makes `withRetry` sleep the capped 5000 ms delay
twice and raise the terminal rate-limit error only on the third (final)
attempt — not on the first failing attempt as specified; with
`maxAttempts = 1` (first attempt final) the escalation is immediate. The
early-escalation check of the source is unreachable because the delay is
clamped to `maxDelayMs` on the line before it. -/
theorem withRetry_ratelimit_escalation_is_late :
    withRetry (T := Unit)
        (fun _ => .error ⟨some 429, none, [("retry-after".toList, "10".toList)]⟩)
        (fun _ => 0) 0 defaultRetryOptions
      = .rateLimited 10 [5000, 5000]
    ∧ withRetry (T := Unit)
        (fun _ => .error ⟨some 429, none, [("retry-after".toList, "10".toList)]⟩)
        (fun _ => 0) 0 ⟨1, 500, 5000, 250⟩
      = .rateLimited 10 [] :=
  ⟨rfl, rfl⟩

/-- Counterexample to C9 as stated: with transient `ECONNRESET` failures,
`maxAttempts = 6`, base 500 ms, cap 5000 ms and a constant jitter draw of
200 ms, the fifth computed delay is 5000 ms, not
`min(maxDelayMs, base*2^(5-1)) + 200 = 5200` ms: the code clamps the delay
to `maxDelayMs` after adding the jitter. -/
theorem backoff_delay_clamped_after_jitter :
    withRetry (T := Unit) (fun _ => .error ⟨none, some "ECONNRESET".toList, []⟩)
        (fun _ => 200) 0 ⟨6, 500, 5000, 250⟩
      = .failure ⟨none, some "ECONNRESET".toList, []⟩ [700, 1200, 2200, 4200, 5000]
    ∧ (5000 : Int) ≠ min 5000 (500 * 2 ^ (5 - 1)) + 200 :=
  ⟨rfl, by decide⟩

theorem withRetryGo_sleeps_spec (op : Nat → Except ErrInfo T) (jit : Nat → Int)
    (now : Int) (opts : RetryOptions) :
    ∀ (fuel attempt : Nat) (sleeps : List Int) (d : Int),
      d ∈ sleepsOf (withRetryGo op jit now opts attempt fuel sleeps) →
      d ∈ sleeps ∨ ∃ (a : Nat) (e : ErrInfo), attempt < a ∧ op (a - 1) = .error e ∧
        d = min opts.maxDelayMs
              ((serverHint now e).getD
                (min opts.maxDelayMs (opts.baseDelayMs * 2 ^ (a - 1))) + jit a) := by
  intro fuel
  induction fuel with
  | zero =>
    intro attempt sleeps d hd
    unfold withRetryGo at hd
    cases hop : op attempt <;> rw [hop] at hd <;> exact Or.inl hd
  | succ fuel ih =>
    intro attempt sleeps d hd
    unfold withRetryGo at hd
    cases hop : op attempt with
    | ok v =>
      rw [hop] at hd
      exact Or.inl hd
    | error e =>
      rw [hop] at hd
      dsimp only at hd
      split at hd
      · split at hd
        · split at hd
          · split at hd
            · exact Or.inl hd
            · exact Or.inl hd
          · exact Or.inl hd
        · exact Or.inl hd
      · split at hd
        · exact Or.inl hd
        · rcases ih (attempt + 1) _ d hd with hmem | ⟨a, e', hlt, hop', hform⟩
          · rcases List.mem_append.1 hmem with hs | hnew
            · exact Or.inl hs
            · simp only [List.mem_singleton] at hnew
              subst hnew
              exact Or.inr ⟨attempt + 1, e, Nat.lt_succ_self attempt, by simpa using hop, rfl⟩
          · exact Or.inr ⟨a, e', Nat.lt_of_succ_lt hlt, hop', hform⟩

/-- C9 (amended): every delay `withRetry` sleeps equals
`min(maxDelayMs, (serverHint ?? min(maxDelayMs, baseDelayMs * 2^(attempt-1))) + jitter)`
for the attempt that computed it — the cap is applied after the jitter is
added (and the uncapped server hint is substituted before the cap) — and
consequently no slept delay ever exceeds `maxDelayMs` at all. -/
theorem withRetry_delay_formula (op : Nat → Except ErrInfo T) (jit : Nat → Int)
    (now : Int) (opts : RetryOptions) (d : Int)
    (hd : d ∈ sleepsOf (withRetry op jit now opts)) :
    (∃ (a : Nat) (e : ErrInfo), 0 < a ∧ op (a - 1) = .error e ∧
      d = min opts.maxDelayMs
            ((serverHint now e).getD
              (min opts.maxDelayMs (opts.baseDelayMs * 2 ^ (a - 1))) + jit a))
    ∧ d ≤ opts.maxDelayMs := by
  rcases withRetryGo_sleeps_spec op jit now opts opts.maxAttempts 0 [] d hd with hmem | hform
  · cases hmem
  · obtain ⟨a, e, hlt, hop, hform'⟩ := hform
    exact ⟨⟨a, e, hlt, hop, hform'⟩, hform' ▸ min_le_left _ _⟩

/-- Witness for C9 at the counterexample's scenario: the first slept delay
(700 ms) satisfies the amended formula and the cap. -/
theorem withRetry_delay_formula_witness :
    (∃ (a : Nat) (e : ErrInfo), 0 < a ∧
      (fun _ => (.error ⟨none, some "ECONNRESET".toList, []⟩ : Except ErrInfo Unit)) (a - 1)
        = .error e ∧
      (700 : Int) = min (5000 : Int)
        ((serverHint 0 e).getD (min (5000 : Int) (500 * 2 ^ (a - 1))) + 200))
    ∧ (700 : Int) ≤ 5000 := by
  have h := withRetry_delay_formula (T := Unit)
    (fun _ => .error ⟨none, some "ECONNRESET".toList, []⟩)
    (fun _ => 200) 0 ⟨6, 500, 5000, 250⟩ 700 (by decide)
  exact h

/-! ## Tool-call interception (`wrapToolExecution`) and tool errors
(`src/lib/errors.ts`) -/

/-- `ToolErrorResponse`. -/
structure ToolErrorResponse where
  error : Str
  errorType : Option Str
  integrationId : Option Str
  hint : Option Str
  retryAfterSeconds : Option Int
deriving DecidableEq, Repr

/-- `createToolError`. -/
def createToolError (integrationId : Str) (message : Str)
    (kind : Option Str) (hint : Option Str) (retryAfterSeconds : Option Int) :
    ToolErrorResponse :=
  ⟨message, kind, some integrationId, hint, retryAfterSeconds⟩

/-- A tool's returned value: either a structured tool-error object (a
record carrying a string `error` field) or an ordinary payload. -/
inductive ToolResult where
  | errorValue : ToolErrorResponse → ToolResult
  | value : Json → ToolResult
deriving DecidableEq, Repr

/-- `isToolErrorResponse`: the value is an object with a string `error`
field, which in this model is exactly the `errorValue` shape. -/
def isToolErrorResponse : ToolResult → Bool
  | .errorValue _ => true
  | .value _ => false

/-- The caller context resolved from `experimental_context`. -/
structure AgentContext where
  userId : Option Str
  teamId : Option Str
  workspaceId : Option Str
  channelId : Option Str
  threadTs : Option Str
deriving DecidableEq, Repr

/-- The rate limiter's `check` result. -/
structure RateCheckResult where
  allowed : Bool
  reason : Option Str
  retryAfter : Option Int
deriving DecidableEq, Repr

/-- Object-field lookup. -/
def objGet (name : Str) : JsonObj → Option Json
  | .nil => none
  | .cons k v rest => if k = name then some v else objGet name rest

/-- `toRecord`: non-objects are wrapped as `{value: input}`. -/
def toRecordJson (input : Json) : Json :=
  match input with
  | .obj fs => .obj fs
  | v => .obj (.cons "value".toList v .nil)

/-- The fields of the `toRecord`ed input. -/
def toRecordObj (input : Json) : JsonObj :=
  match input with
  | .obj fs => fs
  | v => .cons "value".toList v .nil

/-- JavaScript truthiness of a JSON value. -/
def jsTruthy : Json → Bool
  | .null => false
  | .bool b => b
  | .num n => n ≠ 0
  | .str s => s ≠ []
  | .arr _ => true
  | .obj _ => true

/-- `Boolean(inputs.force || inputs.allowDuplicate)`. -/
def allowDuplicateFlag (inputs : JsonObj) : Bool :=
  (match objGet "force".toList inputs with
   | some v => jsTruthy v
   | none => false)
  || (match objGet "allowDuplicate".toList inputs with
      | some v => jsTruthy v
      | none => false)

/-- `entry || default` on an optional string (empty string is falsy). -/
def orFalsyDefault (v : Option Str) (d : Str) : Str :=
  match v with
  | some r => if r = [] then d else r
  | none => d

/-- Drop an optional `_` or `-` separator (`[_-]?`). -/
def dropOptSep : Str → Str
  | '_' :: rest => rest
  | '-' :: rest => rest
  | s => s

/-- Test for the union of the two `DEDUPE_PATTERNS` regexes at the start
of an (already lower-cased) suffix: `create[_-]?(issue|ticket|bug)` and
`create[_-]?(pr|pull[_-]?request|merge[_-]?request)`. -/
def dedupeHitHere (t : Str) : Bool :=
  "create".toList.isPrefixOf t
  && (let r := dropOptSep (t.drop 6)
      "issue".toList.isPrefixOf r || "ticket".toList.isPrefixOf r
      || "bug".toList.isPrefixOf r || "pr".toList.isPrefixOf r
      || ("pull".toList.isPrefixOf r
          && "request".toList.isPrefixOf (dropOptSep (r.drop 4)))
      || ("merge".toList.isPrefixOf r
          && "request".toList.isPrefixOf (dropOptSep (r.drop 5))))

/-- An unanchored regex `test`: some suffix matches. -/
def anySuffix (p : Str → Bool) : Str → Bool
  | [] => p []
  | c :: rest => p (c :: rest) || anySuffix p rest

/-- `ToolGuardrails.shouldDedupe`. -/
def shouldDedupe (toolName : Str) : Bool :=
  if toolName ∈ ALWAYS_ALLOWED_TOOLS then false
  else anySuffix dedupeHitHere (toLowerStr toolName)

/-- What the wrapped `execute` returned to the reasoning framework. -/
inductive WrapOutcome where
  | returned : ToolResult → WrapOutcome
  | threw : Str → WrapOutcome
deriving DecidableEq, Repr

/-- The observable effect of one wrapped tool call: the outcome, whether
`approvalGates.requestApproval` was called, whether the underlying
`execute` was invoked, and the dedupe cache afterwards. -/
structure WrapResult where
  outcome : WrapOutcome
  approvalRequested : Bool
  executed : Bool
  cache : DedupeCache
deriving DecidableEq, Repr

/-- The guardrail/admission pipeline of `wrapToolExecution`, in source
order: allow-list check, duplicate-action check (skipped on an explicit
`force`/`allowDuplicate` override or for non-mutating tool names),
rate-limit check, approval gate, then the underlying `execute` inside
`try/catch` (telemetry writes are external fire-and-forget calls).
`rateCheck` and `requiresApproval` are the collaborators' answers;
`gateId` is the id of the approval record `requestApproval` returns;
`exec` is the underlying tool's behaviour (`.error` models a throw). -/
def wrapToolExecution (cfg : ToolRoutingConfig) (cache : DedupeCache) (now : Int)
    (toolName integrationId : Str) (ctx : AgentContext) (input : Json)
    (rateCheck : RateCheckResult) (requiresApproval : Bool) (gateId : Str)
    (exec : Except Str ToolResult) : WrapResult :=
  let workspaceId := ctx.workspaceId.orElse (fun _ => ctx.teamId)
  let inputs := toRecordObj input
  let allowlistCheck := isToolAllowed cfg workspaceId toolName (some integrationId)
  if allowlistCheck.allowed = false then
    ⟨.returned (.errorValue (createToolError integrationId
        "Tool not allowed for this workspace.".toList none
        (some (allowlistCheck.reason.getD
          "This tool is not permitted in the current workspace.".toList)) none)),
     false, false, cache⟩
  else
    let dedupeResult :=
      if allowDuplicateFlag inputs = false ∧ shouldDedupe toolName = true then
        isDuplicate cfg now cache workspaceId toolName (toRecordJson input)
      else (false, cache)
    if dedupeResult.1 = true then
      ⟨.returned (.errorValue (createToolError integrationId
          "Duplicate action detected.".toList none
          (some ("A similar create action was recently executed. "
            ++ "If this is intentional, retry with force=true or adjust the request details.").toList)
          none)),
       false, false, dedupeResult.2⟩
    else
      if rateCheck.allowed = false then
        ⟨.returned (.errorValue (createToolError integrationId
            (orFalsyDefault rateCheck.reason "Rate limit exceeded".toList) none
            (some "Slow down and try again after the cooldown window.".toList)
            rateCheck.retryAfter)),
         false, false, dedupeResult.2⟩
      else
        if requiresApproval = true then
          ⟨.returned (.errorValue (createToolError integrationId
              "Approval required for this action.".toList none
              (some ("Approval gate ".toList ++ gateId.take 8
                ++ " pending. Use \"approvals\" to review.".toList)) none)),
           true, false, dedupeResult.2⟩
        else
          match exec with
          | .ok result => ⟨.returned result, false, true, dedupeResult.2⟩
          | .error msg => ⟨.threw msg, false, true, dedupeResult.2⟩

/-- C6: guardrail rejections of the tool-call wrapper never raise — a throw
can only come from the underlying tool's `execute`; every rejection is an
in-band structured tool-error value (with its `error` and `hint` fields
populated); and when the approval gate fires, `requestApproval` is invoked
and the underlying `execute` is never called. -/
theorem wrapToolExecution_guardrails (cfg : ToolRoutingConfig) (cache : DedupeCache)
    (now : Int) (toolName integrationId : Str) (ctx : AgentContext) (input : Json)
    (rateCheck : RateCheckResult) (requiresApproval : Bool) (gateId : Str)
    (exec : Except Str ToolResult) :
    (∀ msg, (wrapToolExecution cfg cache now toolName integrationId ctx input
        rateCheck requiresApproval gateId exec).outcome = .threw msg →
      exec = .error msg
      ∧ (wrapToolExecution cfg cache now toolName integrationId ctx input
          rateCheck requiresApproval gateId exec).executed = true)
    ∧ ((wrapToolExecution cfg cache now toolName integrationId ctx input
          rateCheck requiresApproval gateId exec).executed = false →
        ∃ e : ToolErrorResponse,
          (wrapToolExecution cfg cache now toolName integrationId ctx input
            rateCheck requiresApproval gateId exec).outcome = .returned (.errorValue e)
          ∧ isToolErrorResponse (.errorValue e) = true ∧ e.hint.isSome = true)
    ∧ ((isToolAllowed cfg (ctx.workspaceId.orElse (fun _ => ctx.teamId)) toolName
          (some integrationId)).allowed = true →
       (allowDuplicateFlag (toRecordObj input) = true ∨ shouldDedupe toolName = false
         ∨ (isDuplicate cfg now cache (ctx.workspaceId.orElse (fun _ => ctx.teamId))
             toolName (toRecordJson input)).1 = false) →
       rateCheck.allowed = true → requiresApproval = true →
       (wrapToolExecution cfg cache now toolName integrationId ctx input
          rateCheck requiresApproval gateId exec).approvalRequested = true
       ∧ (wrapToolExecution cfg cache now toolName integrationId ctx input
           rateCheck requiresApproval gateId exec).executed = false
       ∧ (wrapToolExecution cfg cache now toolName integrationId ctx input
           rateCheck requiresApproval gateId exec).outcome
         = .returned (.errorValue (createToolError integrationId
             "Approval required for this action.".toList none
             (some ("Approval gate ".toList ++ gateId.take 8
               ++ " pending. Use \"approvals\" to review.".toList)) none)))
    ∧ ((wrapToolExecution cfg cache now toolName integrationId ctx input
          rateCheck requiresApproval gateId exec).approvalRequested = true →
        (wrapToolExecution cfg cache now toolName integrationId ctx input
          rateCheck requiresApproval gateId exec).executed = false) := by
  simp only [wrapToolExecution]
  split_ifs with h1 h2 h3 h4 h5 h6 <;>
    (try cases exec) <;>
    refine ⟨fun msg hmsg => ?_, fun hexec => ?_, fun ha hdup hrate happ => ?_,
            fun happr => ?_⟩ <;>
    simp_all <;>
    (try exact ⟨rfl, rfl⟩)

/-- Witness for C6: a mutating tool call that passes the allow-list,
dedupe and rate checks but requires approval — the gate is requested, the
underlying tool never runs, and the caller gets the structured approval
error. -/
theorem wrapToolExecution_guardrails_witness :
    (wrapToolExecution ⟨none, none⟩ [] 0 "github_create_issue".toList "github".toList
        ⟨some "U1".toList, none, none, none, none⟩
        (Json.obj (.cons "title".toList (.str "crash".toList) .nil))
        ⟨true, none, none⟩ true "abcdef1234".toList
        (.ok (.value .null))).approvalRequested = true
    ∧ (wrapToolExecution ⟨none, none⟩ [] 0 "github_create_issue".toList "github".toList
        ⟨some "U1".toList, none, none, none, none⟩
        (Json.obj (.cons "title".toList (.str "crash".toList) .nil))
        ⟨true, none, none⟩ true "abcdef1234".toList
        (.ok (.value .null))).executed = false := by
  have h := (wrapToolExecution_guardrails ⟨none, none⟩ [] 0
      "github_create_issue".toList "github".toList
      ⟨some "U1".toList, none, none, none, none⟩
      (Json.obj (.cons "title".toList (.str "crash".toList) .nil))
      ⟨true, none, none⟩ true "abcdef1234".toList
      (.ok (.value .null))).2.2.1
    (by decide) (Or.inr (Or.inr (by decide))) rfl rfl
  exact ⟨h.1, h.2.1⟩

end Adept
